import Mathlib

/-!
Verification of the bitfinex-api-go websocket message factories
(`v2/websocket/factories.go`) against their natural-language specification.

The file shallowly embeds the factory layer: the exact-numeric JSON decoding
path (`ConvertBytesToJsonNumberArray`), the per-channel builders
(Ticker, Trade, Book, Candles, Stats) and the order-book replica store that
`BookFactory` maintains.  Raw message bytes are modelled as `List Char`,
Go machine floats restricted to the integral values the claims exercise as
`Int`, Go's `(value, error)` pairs as `Option`/`Except`, and Go runtime
panics (nil dereference, index out of range) as an explicit `panics`
outcome.  Code of the repository that lives outside `factories.go`
(the `Orderbook` methods, the `bitfinex`/`convert`/`ticker`/`candle`/
`derivatives` model constructors, and the behaviour of the standard
`encoding/json` decoder in `UseNumber` mode) is modelled from the spec;
each such definition says so in its doc comment.
-/

namespace BitfinexWS

/-- Enumerated error kinds of the factory layer, following the spec's error
design: `decodeError` for raw bytes that fail the exact-numeric re-decoding,
`malformedKey` for a composite key that does not split into the expected
segment count (it carries the offending key), `dataError` for positional
payloads whose arity or kinds mismatch the channel schema. -/
inductive Err where
  | decodeError (msg : String)
  | malformedKey (key : String)
  | dataError (msg : String)
deriving DecidableEq

/-- A token produced by the exact-numeric decoder: numeric literals keep
their original textual form (`num`), strings, `null`, and nested arrays.
This is the shape `encoding/json` with `UseNumber` produces for the
dynamic `[]interface\x7b\x7d` target: numbers become `json.Number` strings. -/
inductive JToken where
  | num (s : String)
  | str (s : String)
  | null
  | arr (elems : List JToken)

/-- Characters that may occur in a JSON number literal. -/
def numberChar (c : Char) : Bool :=
  c.isDigit || c = '-' || c = '+' || c = '.' || c = 'e' || c = 'E'

/-- Whitespace accepted between JSON tokens. -/
def wsChar (c : Char) : Bool :=
  c = ' ' || c = '\n' || c = '\t' || c = '\r'

/-- Drop leading JSON whitespace. -/
def skipWs : List Char → List Char
  | [] => []
  | c :: cs => if wsChar c then skipWs cs else c :: cs

/-- Consume an optional exponent sign. -/
def chompSign : List Char → List Char
  | '+' :: t => t
  | '-' :: t => t
  | t => t

/-- Consume the digits of an exponent part, requiring at least one. -/
def expDigits (t : List Char) : Option (List Char) :=
  let t2 := chompSign t
  if (t2.takeWhile Char.isDigit).isEmpty then none
  else some (t2.dropWhile Char.isDigit)

/-- Consume an optional exponent part (`e`/`E`, optional sign, digits). -/
def chompExp : List Char → Option (List Char)
  | 'e' :: t => expDigits t
  | 'E' :: t => expDigits t
  | cs => some cs

/-- Consume an optional fractional part (`.` followed by digits). -/
def chompFrac : List Char → Option (List Char)
  | '.' :: t =>
    if (t.takeWhile Char.isDigit).isEmpty then none
    else some (t.dropWhile Char.isDigit)
  | cs => some cs

/-- Strip an optional leading minus sign. -/
def stripMinus (cs : List Char) : List Char :=
  match cs with
  | c :: t => if c = '-' then t else c :: t
  | [] => []

/-- Does the head of the list, if any, falsify the predicate? -/
def headNotB (p : Char → Bool) : List Char → Bool
  | [] => true
  | c :: _ => !p c

/-- Grammar of JSON number literals: optional minus sign, one or more
digits, optional fraction, optional exponent. -/
def validNumber (cs : List Char) : Bool :=
  if ((stripMinus cs).takeWhile Char.isDigit).isEmpty then false
  else
    match chompFrac ((stripMinus cs).dropWhile Char.isDigit) with
    | none => false
    | some r2 =>
      match chompExp r2 with
      | none => false
      | some r3 => r3.isEmpty

/-- A nonempty all-digit literal, optionally preceded by a minus sign:
the textual form of the integer count fields in book messages. -/
def isIntLit (s : String) : Bool :=
  match s.data with
  | [] => false
  | '-' :: ds => !ds.isEmpty && ds.all Char.isDigit
  | ds => ds.all Char.isDigit

mutual
/-- Modelled from the spec: the Exact-Numeric Decoder's recursive-descent
value parser for the JSON array fragment (arrays, numbers kept as their
exact textual form, strings without escapes, `null`).  It stands in for the
standard `encoding/json` decoder in `UseNumber` mode, which is not part of
this repository.  `fuel` bounds the recursion depth; `decodeExact` supplies
a fuel that provably suffices for every serialized token tree. -/
def parseValue : Nat → List Char → Except Err (JToken × List Char)
  | 0, _ => .error (.decodeError "fuel exhausted")
  | _ + 1, [] => .error (.decodeError "unexpected end of input")
  | fuel + 1, c :: rest =>
    if c = '[' then
      match parseElems fuel rest with
      | .error e => .error e
      | .ok (es, r) => .ok (.arr es, r)
    else if c = '"' then
      match rest.dropWhile (fun ch => ch != '"') with
      | '"' :: r2 => .ok (.str (String.mk (rest.takeWhile (fun ch => ch != '"'))), r2)
      | _ => .error (.decodeError "unterminated string")
    else if c = 'n' then
      match rest with
      | 'u' :: 'l' :: 'l' :: r => .ok (.null, r)
      | _ => .error (.decodeError "unexpected character")
    else if c.isDigit || c = '-' then
      if validNumber ((c :: rest).takeWhile numberChar) then
        .ok (.num (String.mk ((c :: rest).takeWhile numberChar)),
          (c :: rest).dropWhile numberChar)
      else .error (.decodeError "invalid number literal")
    else .error (.decodeError "unexpected character")

/-- Modelled from the spec: parse the contents of an array after the
opening bracket, up to and including the closing bracket. -/
def parseElems : Nat → List Char → Except Err (List JToken × List Char)
  | 0, _ => .error (.decodeError "fuel exhausted")
  | fuel + 1, cs =>
    match skipWs cs with
    | [] => .error (.decodeError "unterminated array")
    | c :: r => if c = ']' then .ok ([], r) else parseItems fuel (c :: r)

/-- Modelled from the spec: parse one or more comma-separated array
elements followed by the closing bracket. -/
def parseItems : Nat → List Char → Except Err (List JToken × List Char)
  | 0, _ => .error (.decodeError "fuel exhausted")
  | fuel + 1, cs =>
    match parseValue fuel (skipWs cs) with
    | .error e => .error e
    | .ok (t, r1) =>
      match skipWs r1 with
      | [] => .error (.decodeError "unterminated array")
      | c :: r3 =>
        if c = ',' then
          match parseItems fuel r3 with
          | .error e => .error e
          | .ok (ts, r4) => .ok (t :: ts, r4)
        else if c = ']' then .ok ([t], r3)
        else .error (.decodeError "expected comma or closing bracket")
end

/-- Modelled from the spec: `decodeExact(bytes) → sequence<token> |
DecodeError` — the behaviour of `json.NewDecoder(...).UseNumber();
d.Decode(&raw_json_number)` with a `[]interface\x7b\x7d` target, which is
standard-library code not part of this repository.  Succeeds with the
token sequence when the bytes are a well-formed array literal (numeric
literals kept textually exact); fails with a `DecodeError` otherwise
(including when the bytes hold a non-array JSON value). -/
def decodeExact (cs : List Char) : Except Err (List JToken) :=
  match parseValue (cs.length * 2 + 4) (skipWs cs) with
  | .error e => .error e
  | .ok (.arr es, rest) =>
    if (skipWs rest).isEmpty then .ok es
    else .error (.decodeError "trailing data after array literal")
  | .ok (_, _) => .error (.decodeError "value is not an array literal")

/-- `ConvertBytesToJsonNumberArray` from `factories.go`: re-decode the raw
message bytes with the exact-numeric decoder, propagating its error. -/
def ConvertBytesToJsonNumberArray (raw_bytes : List Char) :
    Except Err (List JToken) :=
  match decodeExact raw_bytes with
  | .error str_conv_err => .error str_conv_err
  | .ok raw_json_number => .ok raw_json_number

mutual
/-- Serialize a token back to bytes; a `num` token re-serializes to exactly
its stored textual form. -/
def serTok : JToken → List Char
  | .num s => s.data
  | .str s => '"' :: s.data ++ ['"']
  | .null => ['n', 'u', 'l', 'l']
  | .arr es => '[' :: serList es ++ [']']

/-- Serialize a comma-separated token list. -/
def serList : List JToken → List Char
  | [] => []
  | [t] => serTok t
  | t :: ts => serTok t ++ ',' :: serList ts
end

mutual
/-- Well-formedness of a token for serialization round-trips: number
tokens hold a valid number literal, string tokens contain no quote. -/
def wfTok : JToken → Bool
  | .num s => validNumber s.data && s.data.all numberChar
  | .str s => s.data.all (fun c => c != '"')
  | .null => true
  | .arr es => wfList es

/-- Well-formedness of every token in a list. -/
def wfList : List JToken → Bool
  | [] => true
  | t :: ts => wfTok t && wfList ts
end

/-- The separator condition a serialized token’s continuation must meet
for the maximal-munch number lexer: after a number token the next byte
must not be a number character (inside an array it is `,` or `]`). -/
def nextSepB : JToken → List Char → Bool
  | .num _, rest => headNotB numberChar rest
  | _, _ => true

mutual
/-- A recursion-depth bound sufficient for `parseValue` on the
serialization of a well-formed token. -/
def fuelTok : JToken → Nat
  | .num _ => 1
  | .str _ => 1
  | .null => 1
  | .arr es => fuelElems es + 1

/-- Depth bound for `parseElems` on a serialized element list. -/
def fuelElems : List JToken → Nat
  | [] => 1
  | t :: ts => fuelItems (t :: ts) + 1

/-- Depth bound for `parseItems` on a serialized element list. -/
def fuelItems : List JToken → Nat
  | [] => 1
  | [t] => fuelTok t + 1
  | t :: ts => max (fuelTok t) (fuelItems ts) + 1
end

/-- A dynamic value of the fast-path decoded payload (`interface\x7b\x7d`
in Go): a number (the claims only exercise integral float values, modelled
as `Int`), a string, or `null`. -/
inductive RawVal where
  | num (n : Int)
  | str (s : String)
  | null
deriving DecidableEq

/-- Convert one raw row to numbers, failing on any non-numeric field. -/
def toFloatRow : List RawVal → Except Err (List Int)
  | [] => .ok []
  | .num n :: t =>
    match toFloatRow t with
    | .ok r => .ok (n :: r)
    | .error e => .error e
  | _ => .error (.dataError "expected a numeric field")

/-- Modelled from the spec: `convert.ToFloat64Array` from `pkg/convert`
(not in src): converts a slice of raw rows to numeric rows, failing if any
field is not a number. -/
def ToFloat64Array : List (List RawVal) → Except Err (List (List Int))
  | [] => .ok []
  | row :: rows =>
    match toFloatRow row with
    | .error e => .error e
    | .ok r =>
      match ToFloat64Array rows with
      | .error e => .error e
      | .ok rs => .ok (r :: rs)

/-- The value of a nonempty all-digit literal. -/
def digitsToNat (cs : List Char) : Nat :=
  cs.foldl (fun acc c => acc * 10 + (c.toNat - '0'.toNat)) 0

/-- Read an exact integer count from its textual form. -/
def parseNatDigits (cs : List Char) : Option Nat :=
  if cs.isEmpty then none
  else if cs.all Char.isDigit then some (digitsToNat cs) else none

/-- One price level of an order book side: price, the exact integer count
of contributing orders, and a signed amount. -/
structure Level where
  price : Int
  count : Nat
  amount : Int
deriving DecidableEq

/-- The side of the book a level belongs to. -/
inductive Side where
  | bid
  | ask
deriving DecidableEq

/-- A decoded incremental book level update. -/
structure BookUpdate where
  symbol : String
  price : Int
  count : Nat
  amount : Int
  side : Side
deriving DecidableEq

/-- The price level described by an update. -/
def BookUpdate.level (u : BookUpdate) : Level :=
  ⟨u.price, u.count, u.amount⟩

/-- A decoded book snapshot: the ordered rows, each as an update. -/
structure BookSnapshot where
  symbol : String
  updates : List BookUpdate
deriving DecidableEq

/-- Insert a level into a descending-by-price list (the bid side),
replacing any existing level at the same price. -/
def insertDesc (l : Level) : List Level → List Level
  | [] => [l]
  | x :: xs =>
    if x.price < l.price then l :: x :: xs
    else if x.price = l.price then l :: xs
    else x :: insertDesc l xs

/-- Insert a level into an ascending-by-price list (the ask side),
replacing any existing level at the same price. -/
def insertAsc (l : Level) : List Level → List Level
  | [] => [l]
  | x :: xs =>
    if l.price < x.price then l :: x :: xs
    else if x.price = l.price then l :: xs
    else x :: insertAsc l xs

/-- Remove the level at the given price, if present. -/
def removeAt (p : Int) (ls : List Level) : List Level :=
  ls.filter fun l => l.price != p

/-- The per-symbol order book replica: bids descending by price, asks
ascending by price. -/
structure Orderbook where
  symbol : String
  bids : List Level
  asks : List Level
deriving DecidableEq

/-- Modelled from the spec: `Orderbook.UpdateWith` (defined in the
websocket package outside `factories.go`): a count greater than zero
upserts the level on its side, replacing any existing level at that price;
a count of zero removes the level at that price if present, and is a no-op
otherwise. -/
def Orderbook.UpdateWith (ob : Orderbook) (u : BookUpdate) : Orderbook :=
  match u.side with
  | .bid =>
    if 0 < u.count then { ob with bids := insertDesc u.level ob.bids }
    else { ob with bids := removeAt u.price ob.bids }
  | .ask =>
    if 0 < u.count then { ob with asks := insertAsc u.level ob.asks }
    else { ob with asks := removeAt u.price ob.asks }

/-- Modelled from the spec: `Orderbook.SetWithSnapshot` (outside
`factories.go`): populate the book wholesale from the snapshot rows. -/
def Orderbook.SetWithSnapshot (ob : Orderbook) (snap : BookSnapshot) : Orderbook :=
  snap.updates.foldl Orderbook.UpdateWith ob

/-- The replica store: the symbol-to-Orderbook mapping (a Go map,
embedded as an association list with unique first occurrences). -/
abbrev Store := List (String × Orderbook)

/-- Map lookup. -/
def lookupStore : Store → String → Option Orderbook
  | [], _ => none
  | (k, v) :: t, s => if k = s then some v else lookupStore t s

/-- Map insert-or-replace. -/
def insertStore : Store → String → Orderbook → Store
  | [], s, b => [(s, b)]
  | (k, v) :: t, s, b => if k = s then (k, b) :: t else (k, v) :: insertStore t s b

/-- The subscription request descriptor (symbol, precision, composite
key), read-only to this layer. -/
structure SubscriptionRequest where
  Symbol : String
  Precision : String
  Key : String
deriving DecidableEq

/-- The subscription object handed in by the external collaborator. -/
structure subscription where
  Request : SubscriptionRequest
deriving DecidableEq

/-- Modelled from the spec: `bitfinex.NewBookUpdateFromRaw` (from the `v2`
package, not in src): build a level update from the fast-path fields
`[price, count, amount]`, taking the count from position 1 of the
exactly-decoded payload (an array token mirroring the same three fields);
the side is the bid side when the amount is positive, the ask side
otherwise.  Fails with a `dataError` on any shape mismatch. -/
def NewBookUpdateFromRaw (symbol precision : String) (raw : List RawVal)
    (exact : JToken) : Except Err BookUpdate :=
  match raw with
  | [.num price, .num _, .num amount] =>
    match exact with
    | .arr [_, .num ctext, _] =>
      match parseNatDigits ctext.data with
      | some count =>
        .ok { symbol := symbol, price := price, count := count,
              amount := amount,
              side := if 0 < amount then .bid else .ask }
      | none => .error (.dataError "count is not an integer literal")
    | _ => .error (.dataError "exact payload shape mismatch")
  | _ => .error (.dataError "invalid book update payload")

/-- Convert snapshot rows (numeric fast-path rows zipped with the
exactly-decoded row tokens) to level updates. -/
def rowsToUpdates (symbol : String) :
    List (List Int) → List JToken → Except Err (List BookUpdate)
  | [], [] => .ok []
  | [price, _, amount] :: rs, .arr [_, .num ctext, _] :: ts =>
    match parseNatDigits ctext.data with
    | some count =>
      match rowsToUpdates symbol rs ts with
      | .ok us =>
        .ok ({ symbol := symbol, price := price, count := count,
               amount := amount,
               side := if 0 < amount then Side.bid else Side.ask } :: us)
      | .error e => .error e
    | none => .error (.dataError "count is not an integer literal")
  | _, _ => .error (.dataError "snapshot shape mismatch")

/-- Modelled from the spec: `bitfinex.NewBookUpdateSnapshotFromRaw` (from
the `v2` package, not in src): build a full snapshot from the converted
numeric rows, taking each row's count from the exactly-decoded payload at
position 1. -/
def NewBookUpdateSnapshotFromRaw (symbol precision : String)
    (converted : List (List Int)) (exact : JToken) :
    Except Err BookSnapshot :=
  match exact with
  | .arr rows =>
    match rowsToUpdates symbol converted rows with
    | .ok us => .ok { symbol := symbol, updates := us }
    | .error e => .error e
  | _ => .error (.dataError "exact payload is not an array of rows")

/-- The `BookFactory` receiver state: the replica store and the
`manageBooks` flag.  The `sync.Mutex` of the Go struct serializes the
store accesses; in this sequential embedding each `Build`/`BuildSnapshot`
store access is a single atomic step (see the concurrency theorem). -/
structure BookFactory where
  orderbooks : Store
  manageBooks : Bool
deriving DecidableEq

/-- The outcome of a `BookFactory` method call: either a Go runtime panic,
or a `(value, error)` pair together with the receiver state after the
call. -/
inductive BuildResult (α : Type) where
  | panics
  | ret (val : Option α) (err : Option Err) (state : BookFactory)

/-- `BookFactory.Build` from `factories.go`: re-decode the raw bytes
exactly (returning the decode error with the store untouched on failure),
index position 1 of the decoded sequence (a Go index-out-of-range panic
when fewer than two tokens were decoded), construct the update, and, when
book management is on and the symbol has a book, apply the update to it
under the lock.  The Go code calls `orderbook.UpdateWith(update)` without
checking the construction error; in that case `update` is a nil pointer
and the call dereferences it, a runtime panic. -/
def BookFactory.Build (f : BookFactory) (sub : subscription)
    (objType : String) (raw : List RawVal) (raw_bytes : List Char) :
    BuildResult BookUpdate :=
  match ConvertBytesToJsonNumberArray raw_bytes with
  | .error str_conv_err => .ret none (some str_conv_err) f
  | .ok raw_json_number =>
    match raw_json_number with
    | _ :: tok1 :: _ =>
      match NewBookUpdateFromRaw sub.Request.Symbol sub.Request.Precision raw tok1 with
      | .ok update =>
        if f.manageBooks then
          match lookupStore f.orderbooks sub.Request.Symbol with
          | some orderbook =>
            let obs := insertStore f.orderbooks sub.Request.Symbol (orderbook.UpdateWith update)
            .ret (some update) none { f with orderbooks := obs }
          | none => .ret (some update) none f
        else .ret (some update) none f
      | .error err =>
        if f.manageBooks then
          match lookupStore f.orderbooks sub.Request.Symbol with
          | some _ => .panics
          | none => .ret none (some err) f
        else .ret none (some err) f
    | _ => .panics

/-- `BookFactory.BuildSnapshot` from `factories.go`: convert the rows to
numeric form, re-decode the raw bytes exactly, index position 1 (panic
when fewer than two tokens), construct the snapshot (early return on
error), and, when book management is on, install a brand-new book for the
symbol populated from the snapshot, replacing any previous entry. -/
def BookFactory.BuildSnapshot (f : BookFactory) (sub : subscription)
    (raw : List (List RawVal)) (raw_bytes : List Char) :
    BuildResult BookSnapshot :=
  match ToFloat64Array raw with
  | .error err => .ret none (some err) f
  | .ok converted =>
    match ConvertBytesToJsonNumberArray raw_bytes with
    | .error str_conv_err => .ret none (some str_conv_err) f
    | .ok raw_json_number =>
      match raw_json_number with
      | _ :: tok1 :: _ =>
        match NewBookUpdateSnapshotFromRaw sub.Request.Symbol
            sub.Request.Precision converted tok1 with
        | .error err2 => .ret none (some err2) f
        | .ok update =>
          if f.manageBooks then
            let fresh : Orderbook :=
              { symbol := sub.Request.Symbol, bids := [], asks := [] }
            let obs := insertStore f.orderbooks sub.Request.Symbol (fresh.SetWithSnapshot update)
            .ret (some update) none { f with orderbooks := obs }
          else .ret (some update) none f
      | _ => .panics

/-- Convert a Go-style fallible result to the `(value, error)` pair the
factory methods return. -/
def exceptToPair {α : Type} : Except Err α → Option α × Option Err
  | .ok a => (some a, none)
  | .error e => (none, some e)

/-- Split a string on a separator character; mirrors Go's
`strings.Split` (splitting the empty string yields one empty segment). -/
def splitOnChar (sep : Char) : List Char → List (List Char)
  | [] => [[]]
  | c :: cs =>
    let rest := splitOnChar sep cs
    if c = sep then [] :: rest
    else
      match rest with
      | [] => [[c]]
      | r :: rs => (c :: r) :: rs

/-- `strings.Split` on a one-character separator, over `String`. -/
def goSplit (sep : Char) (s : String) : List String :=
  (splitOnChar sep s.data).map fun cs => String.mk cs

/-- A decoded ticker (positional fields kept as a numeric list). -/
structure Ticker where
  symbol : String
  fields : List Int
deriving DecidableEq

/-- Modelled from the spec: `ticker.FromRaw` (from `pkg/models/ticker`,
not in src): positional mapping of the raw fields, with the layout arity
selected by whether the symbol denotes a funding currency (prefix `f`) or
a trading pair. -/
def ticker.FromRaw (symbol : String) (raw : List RawVal) : Except Err Ticker :=
  match toFloatRow raw with
  | .error e => .error e
  | .ok ns =>
    let want : Nat :=
      match symbol.data with
      | 'f' :: _ => 13
      | _ => 10
    if ns.length = want then .ok ⟨symbol, ns⟩
    else .error (.dataError "ticker payload arity mismatch")

/-- Modelled from the spec: `ticker.SnapshotFromRaw` (not in src): the
per-row ticker mapping applied across all rows, preserving row order. -/
def ticker.SnapshotFromRaw (symbol : String) (raw : List (List RawVal)) :
    Except Err (List Ticker) :=
  match raw with
  | [] => .ok []
  | row :: rows =>
    match ticker.FromRaw symbol row with
    | .error e => .error e
    | .ok t =>
      match ticker.SnapshotFromRaw symbol rows with
      | .error e => .error e
      | .ok ts => .ok (t :: ts)

/-- The `TickerFactory` methods from `factories.go`: delegate to the
ticker model constructors for the subscription's symbol. -/
def TickerFactory.Build (sub : subscription) (objType : String)
    (raw : List RawVal) (raw_bytes : List Char) : Option Ticker × Option Err :=
  exceptToPair (ticker.FromRaw sub.Request.Symbol raw)

/-- `TickerFactory.BuildSnapshot` from `factories.go`. -/
def TickerFactory.BuildSnapshot (sub : subscription)
    (raw : List (List RawVal)) (raw_bytes : List Char) :
    Option (List Ticker) × Option Err :=
  exceptToPair (ticker.SnapshotFromRaw sub.Request.Symbol raw)

/-- A decoded trade (positional fields kept as a numeric list). -/
structure Trade where
  symbol : String
  fields : List Int
deriving DecidableEq

/-- Modelled from the spec: `bitfinex.NewTradeFromRaw` (from the `v2`
package, not in src): positional mapping of a public trade message
(id, timestamp, amount, price). -/
def NewTradeFromRaw (symbol : String) (raw : List RawVal) : Except Err Trade :=
  match toFloatRow raw with
  | .error e => .error e
  | .ok ns =>
    if 4 ≤ ns.length then .ok ⟨symbol, ns⟩
    else .error (.dataError "data slice too short for trade")

/-- Modelled from the spec: `bitfinex.NewTradeSnapshotFromRaw` (not in
src): the per-row trade mapping applied across the converted rows. -/
def NewTradeSnapshotFromRaw (symbol : String) (converted : List (List Int)) :
    Except Err (List Trade) :=
  match converted with
  | [] => .ok []
  | row :: rows =>
    if 4 ≤ row.length then
      match NewTradeSnapshotFromRaw symbol rows with
      | .error e => .error e
      | .ok ts => .ok (Trade.mk symbol row :: ts)
    else .error (.dataError "data slice too short for trade")

/-- `TradeFactory.Build` from `factories.go`: trade-update messages
(subtype `tu`) are filtered out with `(nil, nil)`; any other subtype is
built from the raw fields. -/
def TradeFactory.Build (sub : subscription) (objType : String)
    (raw : List RawVal) (raw_bytes : List Char) : Option Trade × Option Err :=
  if objType = "tu" then (none, none)
  else exceptToPair (NewTradeFromRaw sub.Request.Symbol raw)

/-- `TradeFactory.BuildSnapshot` from `factories.go`: convert all rows to
numeric form (propagating the conversion error), then build the ordered
trade sequence. -/
def TradeFactory.BuildSnapshot (sub : subscription)
    (raw : List (List RawVal)) (raw_bytes : List Char) :
    Option (List Trade) × Option Err :=
  match ToFloat64Array raw with
  | .error e => (none, some e)
  | .ok converted => exceptToPair (NewTradeSnapshotFromRaw sub.Request.Symbol converted)

/-- A decoded candle. -/
structure Candle where
  symbol : String
  resolution : String
  fields : List Int
deriving DecidableEq

/-- Modelled from the spec: `extractSymbolResolutionFromKey` (defined in
the websocket package outside `factories.go`): the candle composite key is
`prefix:resolution:symbol`, exactly three colon-delimited segments; the
symbol is recovered from segment 3 and the resolution from segment 2, and
a key with any other segment count is a malformed-key error carrying the
offending key. -/
def extractSymbolResolutionFromKey (key : String) : Except Err (String × String) :=
  match goSplit ':' key with
  | [_, res, sym] => .ok (sym, res)
  | _ => .error (.malformedKey key)

/-- Modelled from the spec: `candle.FromRaw` (from `pkg/models/candle`,
not in src): positional mapping of a candle message
(timestamp, open, close, high, low, volume). -/
def candle.FromRaw (symbol resolution : String) (raw : List RawVal) :
    Except Err Candle :=
  match toFloatRow raw with
  | .error e => .error e
  | .ok ns =>
    if 6 ≤ ns.length then .ok ⟨symbol, resolution, ns⟩
    else .error (.dataError "data slice too short for candle")

/-- Modelled from the spec: `candle.SnapshotFromRaw` (not in src). -/
def candle.SnapshotFromRaw (symbol resolution : String)
    (raw : List (List RawVal)) : Except Err (List Candle) :=
  match raw with
  | [] => .ok []
  | row :: rows =>
    match candle.FromRaw symbol resolution row with
    | .error e => .error e
    | .ok c =>
      match candle.SnapshotFromRaw symbol resolution rows with
      | .error e => .error e
      | .ok cs => .ok (c :: cs)

/-- `CandlesFactory.Build` from `factories.go`: recover symbol and
resolution from the subscription key (propagating the parse error), then
build the candle. -/
def CandlesFactory.Build (sub : subscription) (objType : String)
    (raw : List RawVal) (raw_bytes : List Char) : Option Candle × Option Err :=
  match extractSymbolResolutionFromKey sub.Request.Key with
  | .error e => (none, some e)
  | .ok (sym, res) => exceptToPair (candle.FromRaw sym res raw)

/-- `CandlesFactory.BuildSnapshot` from `factories.go`. -/
def CandlesFactory.BuildSnapshot (sub : subscription)
    (raw : List (List RawVal)) (raw_bytes : List Char) :
    Option (List Candle) × Option Err :=
  match extractSymbolResolutionFromKey sub.Request.Key with
  | .error e => (none, some e)
  | .ok (sym, res) => exceptToPair (candle.SnapshotFromRaw sym res raw)

/-- A decoded derivative-status record. -/
structure DerivativeStats where
  symbol : String
  fields : List Int
deriving DecidableEq

/-- Modelled from the spec: `derivatives.FromWsRaw` (from
`pkg/models/derivatives`, not in src): positional mapping of a derivative
status message for the given canonical symbol. -/
def derivatives.FromWsRaw (symbol : String) (raw : List RawVal) :
    Except Err DerivativeStats :=
  match toFloatRow raw with
  | .error e => .error e
  | .ok ns =>
    if 10 ≤ ns.length then .ok ⟨symbol, ns⟩
    else .error (.dataError "data slice too short for derivative status")

/-- `StatsFactory.Build` from `factories.go`: split the subscription key
on colons; a key that does not split into exactly three segments is an
error carrying the offending key; otherwise the canonical symbol is
segment 2 joined with segment 3 by a colon, handed to the derivatives
constructor. -/
def StatsFactory.Build (sub : subscription) (objType : String)
    (raw : List RawVal) (raw_bytes : List Char) :
    Option DerivativeStats × Option Err :=
  match goSplit ':' sub.Request.Key with
  | [_, s1, s2] => exceptToPair (derivatives.FromWsRaw (s1 ++ ":" ++ s2) raw)
  | _ => (none, some (.malformedKey sub.Request.Key))

/-- `StatsFactory.BuildSnapshot` from `factories.go`: the channel has no
snapshots; `(nil, nil)` unconditionally. -/
def StatsFactory.BuildSnapshot (sub : subscription)
    (raw : List (List RawVal)) (raw_bytes : List Char) :
    Option (List DerivativeStats) × Option Err :=
  (none, none)

/-- The closed enumeration of channel kinds the dispatcher routes on. -/
inductive ChannelKind where
  | tickerChan
  | tradeChan
  | bookChan
  | candlesChan
  | statsChan
deriving DecidableEq

/-- A typed single-update value, tagged by channel. -/
inductive BuiltValue where
  | tickerVal (t : Ticker)
  | tradeVal (t : Trade)
  | bookVal (u : BookUpdate)
  | candleVal (c : Candle)
  | statsVal (d : DerivativeStats)
deriving DecidableEq

/-- A typed snapshot value, tagged by channel. -/
inductive BuiltSnapshot where
  | tickerSnap (ts : List Ticker)
  | tradeSnap (ts : List Trade)
  | bookSnap (s : BookSnapshot)
  | candleSnap (cs : List Candle)
  | statsSnap (ds : List DerivativeStats)
deriving DecidableEq

/-- The outcome of a dispatched call: a panic, or a `(value, error)` pair
together with the shared state (the `BookFactory` receiver, the only
factory holding mutable state) after the call. -/
inductive DispatchResult (α : Type) where
  | panics
  | ret (val : Option α) (err : Option Err) (state : BookFactory)

/-- Modelled from the spec: the Dispatcher routes a single-update message
to the builder selected by the subscription's channel kind.  Only the
book builder receives (and may return a changed) shared state; the other
factory receivers hold no reference to the replica store. -/
def dispatchBuild (f : BookFactory) (kind : ChannelKind)
    (sub : subscription) (objType : String) (raw : List RawVal)
    (raw_bytes : List Char) : DispatchResult BuiltValue :=
  match kind with
  | .tickerChan =>
    let p := TickerFactory.Build sub objType raw raw_bytes
    .ret (p.1.map .tickerVal) p.2 f
  | .tradeChan =>
    let p := TradeFactory.Build sub objType raw raw_bytes
    .ret (p.1.map .tradeVal) p.2 f
  | .bookChan =>
    match f.Build sub objType raw raw_bytes with
    | .panics => .panics
    | .ret v e f2 => .ret (v.map .bookVal) e f2
  | .candlesChan =>
    let p := CandlesFactory.Build sub objType raw raw_bytes
    .ret (p.1.map .candleVal) p.2 f
  | .statsChan =>
    let p := StatsFactory.Build sub objType raw raw_bytes
    .ret (p.1.map .statsVal) p.2 f

/-- Modelled from the spec: the Dispatcher's snapshot route. -/
def dispatchBuildSnapshot (f : BookFactory) (kind : ChannelKind)
    (sub : subscription) (raw : List (List RawVal)) (raw_bytes : List Char) :
    DispatchResult BuiltSnapshot :=
  match kind with
  | .tickerChan =>
    let p := TickerFactory.BuildSnapshot sub raw raw_bytes
    .ret (p.1.map .tickerSnap) p.2 f
  | .tradeChan =>
    let p := TradeFactory.BuildSnapshot sub raw raw_bytes
    .ret (p.1.map .tradeSnap) p.2 f
  | .bookChan =>
    match f.BuildSnapshot sub raw raw_bytes with
    | .panics => .panics
    | .ret v e f2 => .ret (v.map .bookSnap) e f2
  | .candlesChan =>
    let p := CandlesFactory.BuildSnapshot sub raw raw_bytes
    .ret (p.1.map .candleSnap) p.2 f
  | .statsChan =>
    let p := StatsFactory.BuildSnapshot sub raw raw_bytes
    .ret (p.1.map .statsSnap) p.2 f

/-! ### Invariants and helper lemmas -/

/-- Bid-side order: prices strictly descending. -/
def descPrices (ls : List Level) : Prop :=
  List.Pairwise (fun a b => b.price < a.price) ls

/-- Ask-side order: prices strictly ascending. -/
def ascPrices (ls : List Level) : Prop :=
  List.Pairwise (fun a b => a.price < b.price) ls

/-- Internal consistency of an order book: both sides sorted by price
(strict order, hence unique prices). -/
def Orderbook.WF (ob : Orderbook) : Prop :=
  descPrices ob.bids ∧ ascPrices ob.asks

/-- The levels of the side an update addresses. -/
def Orderbook.sideLevels (ob : Orderbook) : Side → List Level
  | .bid => ob.bids
  | .ask => ob.asks

/-- The opposite book side. -/
def Side.other : Side → Side
  | .bid => .ask
  | .ask => .bid

/-- One pending `Build` invocation in the concurrency scenario: the
arguments of a single `BookFactory.Build` call. -/
structure BuildCall where
  sub : subscription
  objType : String
  raw : List RawVal
  raw_bytes : List Char

/-- The shared-state effect of one `Build` call.  The decode step is a
pure function of the call alone and happens before the lock is taken; the
only access to the shared store is the single locked lookup-and-mutate
step, so the store transitions of concurrent calls are atomic. -/
def buildStep (f : BookFactory) (c : BuildCall) : BookFactory :=
  match BookFactory.Build f c.sub c.objType c.raw c.raw_bytes with
  | .panics => f
  | .ret _ _ f2 => f2

/-- Run a schedule of `Build` calls against the shared store.  Because
each call touches the store in exactly one atomic locked step and is
otherwise pure, an arbitrary interleaving of N concurrent calls is
observationally a permutation of the calls run in sequence. -/
def runBuilds (f : BookFactory) (cs : List BuildCall) : BookFactory :=
  cs.foldl buildStep f

/-- Concrete witness inputs used by the claim witnesses below. -/
def wSub : subscription := ⟨⟨"tBTCUSD", "P0", "book:tBTCUSD"⟩⟩

/-- An initially empty order book for the witness symbol. -/
def wBook : Orderbook := ⟨"tBTCUSD", [], []⟩

/-- A factory whose store holds one (empty) book, with management on. -/
def wF : BookFactory := ⟨[("tBTCUSD", wBook)], true⟩

/-- Fast-path raw fields of a book update message. -/
def wRawU : List RawVal := [.num 100, .num 2, .num 1]

/-- Raw bytes of the same book update message. -/
def wBytesU : List Char := "[17,[100,2,1]]".data

/-- The book update those inputs decode to. -/
def wU : BookUpdate := ⟨"tBTCUSD", 100, 2, 1, .bid⟩

/-- Fast-path rows of a two-row book snapshot message. -/
def wSnapRaw : List (List RawVal) :=
  [[.num 100, .num 2, .num 1], [.num 102, .num 1, .num (-3)]]

/-- Raw bytes of the same snapshot message. -/
def wSnapBytes : List Char := "[17,[[100,2,1],[102,1,-3]]]".data

/-- The snapshot those inputs decode to. -/
def wSnap : BookSnapshot :=
  ⟨"tBTCUSD", [⟨"tBTCUSD", 100, 2, 1, .bid⟩, ⟨"tBTCUSD", 102, 1, -3, .ask⟩]⟩

/-- A factory with an empty store and management on. -/
def wFempty : BookFactory := ⟨[], true⟩

/-- A derivative-stats subscription with a well-formed composite key. -/
def wSubStats : subscription := ⟨⟨"tBTCF0:USTF0", "P0", "deriv:tBTCF0:USTF0"⟩⟩

/-- Ten numeric fields, the arity of a derivative status payload. -/
def wRawStats : List RawVal :=
  [.num 1, .num 2, .num 3, .num 4, .num 5, .num 6, .num 7, .num 8, .num 9, .num 10]

/-- The witness `Build` call for the concurrency claim. -/
def wCall : BuildCall := ⟨wSub, "", wRawU, wBytesU⟩



theorem lookupStore_insertStore_self (s : Store) (k : String) (b : Orderbook) :
    lookupStore (insertStore s k b) k = some b := by
  induction s with
  | nil => simp [insertStore, lookupStore]
  | cons h t ih =>
    obtain ⟨k1, v1⟩ := h
    by_cases hk : k1 = k
    · subst hk; simp [insertStore, lookupStore]
    · simp [insertStore, lookupStore, hk, ih]

theorem lookupStore_insertStore_ne (s : Store) (k : String) (b : Orderbook)
    (k2 : String) (h : k2 ≠ k) :
    lookupStore (insertStore s k b) k2 = lookupStore s k2 := by
  have hk2 : k ≠ k2 := Ne.symm h
  induction s with
  | nil => simp [insertStore, lookupStore, hk2]
  | cons hd t ih =>
    obtain ⟨k1, v1⟩ := hd
    by_cases hk : k1 = k
    · subst hk; simp [insertStore, lookupStore, hk2]
    · simp [insertStore, lookupStore, hk, ih]

theorem insertStore_self_of_lookup (s : Store) (k : String) (b : Orderbook)
    (h : lookupStore s k = some b) : insertStore s k b = s := by
  induction s with
  | nil => simp [lookupStore] at h
  | cons hd t ih =>
    obtain ⟨k1, v1⟩ := hd
    by_cases hk : k1 = k
    · subst hk
      have hv : v1 = b := by simpa [lookupStore] using h
      subst hv
      simp [insertStore]
    · simp only [lookupStore, if_neg hk] at h
      simp [insertStore, hk, ih h]

theorem lookupStore_insertStore_isSome (s : Store) (k k2 : String)
    (b : Orderbook) (h : lookupStore s k2 ≠ none) :
    lookupStore (insertStore s k b) k2 ≠ none := by
  by_cases hk : k2 = k
  · subst hk; simp [lookupStore_insertStore_self]
  · rw [lookupStore_insertStore_ne s k b k2 hk]; exact h

theorem mem_insertDesc_sub {l x : Level} {xs : List Level}
    (h : l ∈ insertDesc x xs) : l = x ∨ l ∈ xs := by
  induction xs with
  | nil =>
    simp only [insertDesc, List.mem_singleton] at h
    exact Or.inl h
  | cons y ys ih =>
    simp only [insertDesc] at h
    by_cases h1 : y.price < x.price
    · rw [if_pos h1] at h
      simpa [List.mem_cons] using h
    · rw [if_neg h1] at h
      by_cases h2 : y.price = x.price
      · rw [if_pos h2] at h
        simp only [List.mem_cons] at h ⊢
        tauto
      · rw [if_neg h2] at h
        simp only [List.mem_cons] at h
        rcases h with h | h
        · simp [List.mem_cons, h]
        · rcases ih h with h3 | h3
          · exact Or.inl h3
          · simp [List.mem_cons, h3]

theorem mem_insertAsc_sub {l x : Level} {xs : List Level}
    (h : l ∈ insertAsc x xs) : l = x ∨ l ∈ xs := by
  induction xs with
  | nil =>
    simp only [insertAsc, List.mem_singleton] at h
    exact Or.inl h
  | cons y ys ih =>
    simp only [insertAsc] at h
    by_cases h1 : x.price < y.price
    · rw [if_pos h1] at h
      simpa [List.mem_cons] using h
    · rw [if_neg h1] at h
      by_cases h2 : y.price = x.price
      · rw [if_pos h2] at h
        simp only [List.mem_cons] at h ⊢
        tauto
      · rw [if_neg h2] at h
        simp only [List.mem_cons] at h
        rcases h with h | h
        · simp [List.mem_cons, h]
        · rcases ih h with h3 | h3
          · exact Or.inl h3
          · simp [List.mem_cons, h3]

theorem descPrices_insertDesc (x : Level) (xs : List Level)
    (h : descPrices xs) : descPrices (insertDesc x xs) := by
  induction xs with
  | nil => simp [insertDesc, descPrices]
  | cons y ys ih =>
    rw [descPrices, List.pairwise_cons] at h
    obtain ⟨hy, hys⟩ := h
    simp only [insertDesc]
    by_cases h1 : y.price < x.price
    · rw [if_pos h1]
      rw [descPrices, List.pairwise_cons]
      refine ⟨?_, List.pairwise_cons.mpr ⟨hy, hys⟩⟩
      intro z hz
      rcases List.mem_cons.mp hz with hz | hz
      · subst hz; omega
      · have := hy z hz; omega
    · rw [if_neg h1]
      by_cases h2 : y.price = x.price
      · rw [if_pos h2]
        rw [descPrices, List.pairwise_cons]
        refine ⟨?_, hys⟩
        intro z hz
        have := hy z hz; omega
      · rw [if_neg h2]
        rw [descPrices, List.pairwise_cons]
        refine ⟨?_, ih hys⟩
        intro z hz
        rcases mem_insertDesc_sub hz with h3 | h3
        · subst h3; omega
        · exact hy z h3

theorem ascPrices_insertAsc (x : Level) (xs : List Level)
    (h : ascPrices xs) : ascPrices (insertAsc x xs) := by
  induction xs with
  | nil => simp [insertAsc, ascPrices]
  | cons y ys ih =>
    rw [ascPrices, List.pairwise_cons] at h
    obtain ⟨hy, hys⟩ := h
    simp only [insertAsc]
    by_cases h1 : x.price < y.price
    · rw [if_pos h1]
      rw [ascPrices, List.pairwise_cons]
      refine ⟨?_, List.pairwise_cons.mpr ⟨hy, hys⟩⟩
      intro z hz
      rcases List.mem_cons.mp hz with hz | hz
      · subst hz; omega
      · have := hy z hz; omega
    · rw [if_neg h1]
      by_cases h2 : y.price = x.price
      · rw [if_pos h2]
        rw [ascPrices, List.pairwise_cons]
        refine ⟨?_, hys⟩
        intro z hz
        have := hy z hz; omega
      · rw [if_neg h2]
        rw [ascPrices, List.pairwise_cons]
        refine ⟨?_, ih hys⟩
        intro z hz
        rcases mem_insertAsc_sub hz with h3 | h3
        · subst h3; omega
        · exact hy z h3

theorem mem_insertDesc_iff (x : Level) (xs : List Level) (hs : descPrices xs)
    (l : Level) :
    l ∈ insertDesc x xs ↔ l = x ∨ (l ∈ xs ∧ l.price ≠ x.price) := by
  induction xs with
  | nil => simp [insertDesc]
  | cons y ys ih =>
    rw [descPrices, List.pairwise_cons] at hs
    obtain ⟨hy, hys⟩ := hs
    simp only [insertDesc]
    by_cases h1 : y.price < x.price
    · rw [if_pos h1]
      simp only [List.mem_cons]
      constructor
      · intro h
        rcases h with h | h | h
        · exact Or.inl h
        · subst h; exact Or.inr ⟨Or.inl rfl, by omega⟩
        · have := hy l h
          exact Or.inr ⟨Or.inr h, by omega⟩
      · intro h
        rcases h with h | ⟨h, _⟩
        · exact Or.inl h
        · exact Or.inr h
    · rw [if_neg h1]
      by_cases h2 : y.price = x.price
      · rw [if_pos h2]
        simp only [List.mem_cons]
        constructor
        · intro h
          rcases h with h | h
          · exact Or.inl h
          · have := hy l h
            exact Or.inr ⟨Or.inr h, by omega⟩
        · intro h
          rcases h with h | ⟨h, hne⟩
          · exact Or.inl h
          · rcases h with h | h
            · subst h; omega
            · exact Or.inr h
      · rw [if_neg h2]
        simp only [List.mem_cons]
        constructor
        · intro h
          rcases h with h | h
          · subst h; exact Or.inr ⟨Or.inl rfl, by omega⟩
          · rcases (ih hys).mp h with h3 | ⟨h3, h4⟩
            · exact Or.inl h3
            · exact Or.inr ⟨Or.inr h3, h4⟩
        · intro h
          rcases h with h | ⟨h, h4⟩
          · exact Or.inr ((ih hys).mpr (Or.inl h))
          · rcases h with h | h
            · exact Or.inl h
            · exact Or.inr ((ih hys).mpr (Or.inr ⟨h, h4⟩))

theorem mem_insertAsc_iff (x : Level) (xs : List Level) (hs : ascPrices xs)
    (l : Level) :
    l ∈ insertAsc x xs ↔ l = x ∨ (l ∈ xs ∧ l.price ≠ x.price) := by
  induction xs with
  | nil => simp [insertAsc]
  | cons y ys ih =>
    rw [ascPrices, List.pairwise_cons] at hs
    obtain ⟨hy, hys⟩ := hs
    simp only [insertAsc]
    by_cases h1 : x.price < y.price
    · rw [if_pos h1]
      simp only [List.mem_cons]
      constructor
      · intro h
        rcases h with h | h | h
        · exact Or.inl h
        · subst h; exact Or.inr ⟨Or.inl rfl, by omega⟩
        · have := hy l h
          exact Or.inr ⟨Or.inr h, by omega⟩
      · intro h
        rcases h with h | ⟨h, _⟩
        · exact Or.inl h
        · exact Or.inr h
    · rw [if_neg h1]
      by_cases h2 : y.price = x.price
      · rw [if_pos h2]
        simp only [List.mem_cons]
        constructor
        · intro h
          rcases h with h | h
          · exact Or.inl h
          · have := hy l h
            exact Or.inr ⟨Or.inr h, by omega⟩
        · intro h
          rcases h with h | ⟨h, hne⟩
          · exact Or.inl h
          · rcases h with h | h
            · subst h; omega
            · exact Or.inr h
      · rw [if_neg h2]
        simp only [List.mem_cons]
        constructor
        · intro h
          rcases h with h | h
          · subst h; exact Or.inr ⟨Or.inl rfl, by omega⟩
          · rcases (ih hys).mp h with h3 | ⟨h3, h4⟩
            · exact Or.inl h3
            · exact Or.inr ⟨Or.inr h3, h4⟩
        · intro h
          rcases h with h | ⟨h, h4⟩
          · exact Or.inr ((ih hys).mpr (Or.inl h))
          · rcases h with h | h
            · exact Or.inl h
            · exact Or.inr ((ih hys).mpr (Or.inr ⟨h, h4⟩))

theorem mem_removeAt (p : Int) (ls : List Level) (l : Level) :
    l ∈ removeAt p ls ↔ l ∈ ls ∧ l.price ≠ p := by
  simp [removeAt, List.mem_filter, bne_iff_ne]

theorem removeAt_idem (p : Int) (ls : List Level) :
    removeAt p (removeAt p ls) = removeAt p ls := by
  simp [removeAt, List.filter_filter]

theorem removeAt_of_absent (p : Int) (ls : List Level)
    (h : ∀ l ∈ ls, l.price ≠ p) : removeAt p ls = ls := by
  rw [removeAt, List.filter_eq_self]
  intro l hl
  simpa [bne_iff_ne] using h l hl

theorem descPrices_removeAt (p : Int) (ls : List Level) (h : descPrices ls) :
    descPrices (removeAt p ls) :=
  List.Pairwise.sublist (List.filter_sublist ls) h

theorem ascPrices_removeAt (p : Int) (ls : List Level) (h : ascPrices ls) :
    ascPrices (removeAt p ls) :=
  List.Pairwise.sublist (List.filter_sublist ls) h

theorem UpdateWith_pos_bid (ob : Orderbook) (u : BookUpdate)
    (hs : u.side = .bid) (hc : 0 < u.count) :
    ob.UpdateWith u = { ob with bids := insertDesc u.level ob.bids } := by
  simp [Orderbook.UpdateWith, hs, hc]

theorem UpdateWith_pos_ask (ob : Orderbook) (u : BookUpdate)
    (hs : u.side = .ask) (hc : 0 < u.count) :
    ob.UpdateWith u = { ob with asks := insertAsc u.level ob.asks } := by
  simp [Orderbook.UpdateWith, hs, hc]

theorem UpdateWith_zero_bid (ob : Orderbook) (u : BookUpdate)
    (hs : u.side = .bid) (hc : u.count = 0) :
    ob.UpdateWith u = { ob with bids := removeAt u.price ob.bids } := by
  simp [Orderbook.UpdateWith, hs, hc]

theorem UpdateWith_zero_ask (ob : Orderbook) (u : BookUpdate)
    (hs : u.side = .ask) (hc : u.count = 0) :
    ob.UpdateWith u = { ob with asks := removeAt u.price ob.asks } := by
  simp [Orderbook.UpdateWith, hs, hc]

theorem UpdateWith_WF (ob : Orderbook) (u : BookUpdate) (h : ob.WF) :
    (ob.UpdateWith u).WF := by
  obtain ⟨hb, ha⟩ := h
  cases hs : u.side
  · by_cases hc : 0 < u.count
    · rw [UpdateWith_pos_bid ob u hs hc]
      exact ⟨descPrices_insertDesc _ _ hb, ha⟩
    · rw [UpdateWith_zero_bid ob u hs (by omega)]
      exact ⟨descPrices_removeAt _ _ hb, ha⟩
  · by_cases hc : 0 < u.count
    · rw [UpdateWith_pos_ask ob u hs hc]
      exact ⟨hb, ascPrices_insertAsc _ _ ha⟩
    · rw [UpdateWith_zero_ask ob u hs (by omega)]
      exact ⟨hb, ascPrices_removeAt _ _ ha⟩

theorem UpdateWith_other_side (ob : Orderbook) (u : BookUpdate) :
    (ob.UpdateWith u).sideLevels u.side.other = ob.sideLevels u.side.other := by
  cases hs : u.side <;> by_cases hc : 0 < u.count <;>
    simp [Orderbook.UpdateWith, Orderbook.sideLevels, Side.other, hs, hc]

theorem UpdateWith_symbol (ob : Orderbook) (u : BookUpdate) :
    (ob.UpdateWith u).symbol = ob.symbol := by
  cases hs : u.side <;> by_cases hc : 0 < u.count <;>
    simp [Orderbook.UpdateWith, hs, hc]

theorem UpdateWith_mem_pos (ob : Orderbook) (u : BookUpdate) (hwf : ob.WF)
    (hc : 0 < u.count) (l : Level) :
    l ∈ (ob.UpdateWith u).sideLevels u.side ↔
      l = u.level ∨ (l ∈ ob.sideLevels u.side ∧ l.price ≠ u.price) := by
  obtain ⟨hb, ha⟩ := hwf
  cases hs : u.side
  · rw [UpdateWith_pos_bid ob u hs hc]
    simpa [Orderbook.sideLevels] using mem_insertDesc_iff u.level ob.bids hb l
  · rw [UpdateWith_pos_ask ob u hs hc]
    simpa [Orderbook.sideLevels] using mem_insertAsc_iff u.level ob.asks ha l

theorem UpdateWith_zero_levels (ob : Orderbook) (u : BookUpdate)
    (hc : u.count = 0) :
    (ob.UpdateWith u).sideLevels u.side = removeAt u.price (ob.sideLevels u.side) := by
  cases hs : u.side
  · rw [UpdateWith_zero_bid ob u hs hc]; simp [Orderbook.sideLevels]
  · rw [UpdateWith_zero_ask ob u hs hc]; simp [Orderbook.sideLevels]

theorem UpdateWith_zero_absent (ob : Orderbook) (u : BookUpdate)
    (hc : u.count = 0)
    (habs : ∀ l ∈ ob.sideLevels u.side, l.price ≠ u.price) :
    ob.UpdateWith u = ob := by
  cases hs : u.side
  · rw [UpdateWith_zero_bid ob u hs hc]
    have := removeAt_of_absent u.price ob.bids (by simpa [Orderbook.sideLevels, hs] using habs)
    simp [this]
  · rw [UpdateWith_zero_ask ob u hs hc]
    have := removeAt_of_absent u.price ob.asks (by simpa [Orderbook.sideLevels, hs] using habs)
    simp [this]

theorem UpdateWith_zero_idem (ob : Orderbook) (u : BookUpdate)
    (hc : u.count = 0) :
    (ob.UpdateWith u).UpdateWith u = ob.UpdateWith u := by
  cases hs : u.side
  · rw [UpdateWith_zero_bid ob u hs hc, UpdateWith_zero_bid _ u hs hc]
    simp [removeAt_idem]
  · rw [UpdateWith_zero_ask ob u hs hc, UpdateWith_zero_ask _ u hs hc]
    simp [removeAt_idem]

theorem UpdateWith_mem_sub (ob : Orderbook) (u : BookUpdate) (l : Level)
    (h : l ∈ (ob.UpdateWith u).bids ++ (ob.UpdateWith u).asks) :
    l ∈ ob.bids ++ ob.asks ∨ l = u.level := by
  cases hs : u.side
  · by_cases hc : 0 < u.count
    · rw [UpdateWith_pos_bid ob u hs hc] at h
      simp only [List.mem_append] at h ⊢
      rcases h with h | h
      · rcases mem_insertDesc_sub h with h2 | h2
        · exact Or.inr h2
        · exact Or.inl (Or.inl h2)
      · exact Or.inl (Or.inr h)
    · rw [UpdateWith_zero_bid ob u hs (by omega)] at h
      simp only [List.mem_append] at h ⊢
      rcases h with h | h
      · exact Or.inl (Or.inl ((mem_removeAt u.price ob.bids l).mp h).1)
      · exact Or.inl (Or.inr h)
  · by_cases hc : 0 < u.count
    · rw [UpdateWith_pos_ask ob u hs hc] at h
      simp only [List.mem_append] at h ⊢
      rcases h with h | h
      · exact Or.inl (Or.inl h)
      · rcases mem_insertAsc_sub h with h2 | h2
        · exact Or.inr h2
        · exact Or.inl (Or.inr h2)
    · rw [UpdateWith_zero_ask ob u hs (by omega)] at h
      simp only [List.mem_append] at h ⊢
      rcases h with h | h
      · exact Or.inl (Or.inl h)
      · exact Or.inl (Or.inr ((mem_removeAt u.price ob.asks l).mp h).1)

theorem foldl_UpdateWith_levels (us : List BookUpdate) :
    ∀ (ob : Orderbook) (l : Level),
      l ∈ (us.foldl Orderbook.UpdateWith ob).bids ++
            (us.foldl Orderbook.UpdateWith ob).asks →
      l ∈ ob.bids ++ ob.asks ∨ ∃ u ∈ us, u.level = l := by
  induction us with
  | nil =>
    intro ob l h
    rw [List.foldl_nil] at h
    exact Or.inl h
  | cons u us ih =>
    intro ob l h
    rw [List.foldl_cons] at h
    rcases ih (ob.UpdateWith u) l h with h2 | ⟨u2, hu2, hl2⟩
    · rcases UpdateWith_mem_sub ob u l h2 with h3 | h3
      · exact Or.inl h3
      · exact Or.inr ⟨u, by simp, h3.symm⟩
    · exact Or.inr ⟨u2, by simp [hu2], hl2⟩

theorem SetWithSnapshot_levels (ob : Orderbook) (snap : BookSnapshot)
    (l : Level)
    (h : l ∈ (ob.SetWithSnapshot snap).bids ++ (ob.SetWithSnapshot snap).asks) :
    l ∈ ob.bids ++ ob.asks ∨ ∃ u ∈ snap.updates, u.level = l :=
  foldl_UpdateWith_levels snap.updates ob l h

theorem Build_of_ok (f : BookFactory) (sub : subscription) (objType : String)
    (raw : List RawVal) (raw_bytes : List Char) (t0 tok1 : JToken)
    (rest : List JToken) (u : BookUpdate)
    (hdec : ConvertBytesToJsonNumberArray raw_bytes = .ok (t0 :: tok1 :: rest))
    (hupd : NewBookUpdateFromRaw sub.Request.Symbol sub.Request.Precision raw tok1 = .ok u) :
    BookFactory.Build f sub objType raw raw_bytes =
      if f.manageBooks then
        match lookupStore f.orderbooks sub.Request.Symbol with
        | some ob =>
          .ret (some u) none
            { f with orderbooks :=
                insertStore f.orderbooks sub.Request.Symbol (ob.UpdateWith u) }
        | none => .ret (some u) none f
      else .ret (some u) none f := by
  unfold BookFactory.Build
  simp only [hdec, hupd]

theorem Build_ret_err_state (f : BookFactory) (sub : subscription)
    (objType : String) (raw : List RawVal) (raw_bytes : List Char)
    (v : Option BookUpdate) (e : Err) (f2 : BookFactory)
    (h : BookFactory.Build f sub objType raw raw_bytes = .ret v (some e) f2) :
    f2 = f ∧ v = none := by
  unfold BookFactory.Build at h
  cases hdec : ConvertBytesToJsonNumberArray raw_bytes with
  | error e2 =>
    simp only [hdec] at h
    injection h with h1 h2 h3
    exact ⟨h3.symm, h1.symm⟩
  | ok toks =>
    simp only [hdec] at h
    rcases toks with _ | ⟨t0, _ | ⟨tok1, rest⟩⟩
    · exact BuildResult.noConfusion h
    · exact BuildResult.noConfusion h
    · cases hupd : NewBookUpdateFromRaw sub.Request.Symbol sub.Request.Precision raw tok1 with
      | ok u =>
        simp only [hupd] at h
        by_cases hm : f.manageBooks = true
        · rw [if_pos hm] at h
          cases hl : lookupStore f.orderbooks sub.Request.Symbol with
          | some ob =>
            rw [hl] at h
            injection h with h1 h2 h3
            exact Option.noConfusion h2
          | none =>
            rw [hl] at h
            injection h with h1 h2 h3
            exact Option.noConfusion h2
        · rw [if_neg hm] at h
          injection h with h1 h2 h3
          exact Option.noConfusion h2
      | error e2 =>
        simp only [hupd] at h
        by_cases hm : f.manageBooks = true
        · rw [if_pos hm] at h
          cases hl : lookupStore f.orderbooks sub.Request.Symbol with
          | some ob => rw [hl] at h; exact BuildResult.noConfusion h
          | none =>
            rw [hl] at h
            injection h with h1 h2 h3
            exact ⟨h3.symm, h1.symm⟩
        · rw [if_neg hm] at h
          injection h with h1 h2 h3
          exact ⟨h3.symm, h1.symm⟩

theorem BuildSnapshot_ret_err_state (f : BookFactory) (sub : subscription)
    (raw : List (List RawVal)) (raw_bytes : List Char)
    (v : Option BookSnapshot) (e : Err) (f2 : BookFactory)
    (h : BookFactory.BuildSnapshot f sub raw raw_bytes = .ret v (some e) f2) :
    f2 = f ∧ v = none := by
  unfold BookFactory.BuildSnapshot at h
  cases hconv : ToFloat64Array raw with
  | error e2 =>
    simp only [hconv] at h
    injection h with h1 h2 h3
    exact ⟨h3.symm, h1.symm⟩
  | ok converted =>
    simp only [hconv] at h
    cases hdec : ConvertBytesToJsonNumberArray raw_bytes with
    | error e2 =>
      simp only [hdec] at h
      injection h with h1 h2 h3
      exact ⟨h3.symm, h1.symm⟩
    | ok toks =>
      simp only [hdec] at h
      rcases toks with _ | ⟨t0, _ | ⟨tok1, rest⟩⟩
      · exact BuildResult.noConfusion h
      · exact BuildResult.noConfusion h
      · cases hsnap : NewBookUpdateSnapshotFromRaw sub.Request.Symbol
            sub.Request.Precision converted tok1 with
        | error e2 =>
          simp only [hsnap] at h
          injection h with h1 h2 h3
          exact ⟨h3.symm, h1.symm⟩
        | ok snap =>
          simp only [hsnap] at h
          by_cases hm : f.manageBooks = true
          · rw [if_pos hm] at h
            injection h with h1 h2 h3
            exact Option.noConfusion h2
          · rw [if_neg hm] at h
            injection h with h1 h2 h3
            exact Option.noConfusion h2

theorem Build_ok_inv (f : BookFactory) (sub : subscription) (objType : String)
    (raw : List RawVal) (raw_bytes : List Char) (u : BookUpdate)
    (f2 : BookFactory)
    (h : BookFactory.Build f sub objType raw raw_bytes = .ret (some u) none f2) :
    ∃ t0 tok1 rest,
      ConvertBytesToJsonNumberArray raw_bytes = .ok (t0 :: tok1 :: rest) ∧
      NewBookUpdateFromRaw sub.Request.Symbol sub.Request.Precision raw tok1 = .ok u ∧
      ((f.manageBooks = true ∧
          ∃ ob, lookupStore f.orderbooks sub.Request.Symbol = some ob ∧
            f2 = { f with orderbooks := insertStore f.orderbooks sub.Request.Symbol (ob.UpdateWith u) }) ∨
        (f2 = f ∧ (f.manageBooks = false ∨
          lookupStore f.orderbooks sub.Request.Symbol = none))) := by
  unfold BookFactory.Build at h
  cases hdec : ConvertBytesToJsonNumberArray raw_bytes with
  | error e2 =>
    simp only [hdec] at h
    injection h with h1 h2 h3
    exact Option.noConfusion h2
  | ok toks =>
    simp only [hdec] at h
    rcases toks with _ | ⟨t0, _ | ⟨tok1, rest⟩⟩
    · exact BuildResult.noConfusion h
    · exact BuildResult.noConfusion h
    · cases hupd : NewBookUpdateFromRaw sub.Request.Symbol sub.Request.Precision raw tok1 with
      | error e2 =>
        simp only [hupd] at h
        by_cases hm : f.manageBooks = true
        · rw [if_pos hm] at h
          cases hl : lookupStore f.orderbooks sub.Request.Symbol with
          | some ob => rw [hl] at h; exact BuildResult.noConfusion h
          | none =>
            rw [hl] at h
            injection h with h1 h2 h3
            exact Option.noConfusion h1
        · rw [if_neg hm] at h
          injection h with h1 h2 h3
          exact Option.noConfusion h1
      | ok u0 =>
        simp only [hupd] at h
        by_cases hm : f.manageBooks = true
        · rw [if_pos hm] at h
          cases hl : lookupStore f.orderbooks sub.Request.Symbol with
          | some ob =>
            rw [hl] at h
            injection h with h1 h2 h3
            have hu : u0 = u := by injection h1
            subst hu
            exact ⟨t0, tok1, rest, rfl, hupd,
              Or.inl ⟨hm, ob, rfl, h3.symm⟩⟩
          | none =>
            rw [hl] at h
            injection h with h1 h2 h3
            have hu : u0 = u := by injection h1
            subst hu
            exact ⟨t0, tok1, rest, rfl, hupd, Or.inr ⟨h3.symm, Or.inr rfl⟩⟩
        · rw [if_neg hm] at h
          injection h with h1 h2 h3
          have hu : u0 = u := by injection h1
          subst hu
          exact ⟨t0, tok1, rest, rfl, hupd,
            Or.inr ⟨h3.symm, Or.inl (by simpa using hm)⟩⟩

theorem BuildSnapshot_ok_inv (f : BookFactory) (sub : subscription)
    (raw : List (List RawVal)) (raw_bytes : List Char) (snap : BookSnapshot)
    (f2 : BookFactory)
    (h : BookFactory.BuildSnapshot f sub raw raw_bytes = .ret (some snap) none f2) :
    (f.manageBooks = true →
      f2 = { f with orderbooks := insertStore f.orderbooks sub.Request.Symbol (Orderbook.SetWithSnapshot ⟨sub.Request.Symbol, [], []⟩ snap) }) ∧
    (f.manageBooks = false → f2 = f) := by
  unfold BookFactory.BuildSnapshot at h
  cases hconv : ToFloat64Array raw with
  | error e2 =>
    simp only [hconv] at h
    injection h with h1 h2 h3
    exact Option.noConfusion h1
  | ok converted =>
    simp only [hconv] at h
    cases hdec : ConvertBytesToJsonNumberArray raw_bytes with
    | error e2 =>
      simp only [hdec] at h
      injection h with h1 h2 h3
      exact Option.noConfusion h1
    | ok toks =>
      simp only [hdec] at h
      rcases toks with _ | ⟨t0, _ | ⟨tok1, rest⟩⟩
      · exact BuildResult.noConfusion h
      · exact BuildResult.noConfusion h
      · cases hsnap : NewBookUpdateSnapshotFromRaw sub.Request.Symbol
            sub.Request.Precision converted tok1 with
        | error e2 =>
          simp only [hsnap] at h
          injection h with h1 h2 h3
          exact Option.noConfusion h1
        | ok snap0 =>
          simp only [hsnap] at h
          by_cases hm : f.manageBooks = true
          · rw [if_pos hm] at h
            injection h with h1 h2 h3
            have hs : snap0 = snap := by injection h1
            subst hs
            exact ⟨fun _ => h3.symm, fun hf => by rw [hf] at hm; exact Bool.noConfusion hm⟩
          · rw [if_neg hm] at h
            injection h with h1 h2 h3
            exact ⟨fun ht => absurd ht hm, fun _ => h3.symm⟩

theorem Build_state_cases (f : BookFactory) (sub : subscription)
    (objType : String) (raw : List RawVal) (raw_bytes : List Char)
    (v : Option BookUpdate) (e : Option Err) (f2 : BookFactory)
    (h : BookFactory.Build f sub objType raw raw_bytes = .ret v e f2) :
    f2 = f ∨ ∃ ob u, lookupStore f.orderbooks sub.Request.Symbol = some ob ∧
      f2 = { f with orderbooks := insertStore f.orderbooks sub.Request.Symbol (ob.UpdateWith u) } := by
  unfold BookFactory.Build at h
  cases hdec : ConvertBytesToJsonNumberArray raw_bytes with
  | error e2 =>
    simp only [hdec] at h
    injection h with h1 h2 h3
    exact Or.inl h3.symm
  | ok toks =>
    simp only [hdec] at h
    rcases toks with _ | ⟨t0, _ | ⟨tok1, rest⟩⟩
    · exact BuildResult.noConfusion h
    · exact BuildResult.noConfusion h
    · cases hupd : NewBookUpdateFromRaw sub.Request.Symbol sub.Request.Precision raw tok1 with
      | error e2 =>
        simp only [hupd] at h
        by_cases hm : f.manageBooks = true
        · rw [if_pos hm] at h
          cases hl : lookupStore f.orderbooks sub.Request.Symbol with
          | some ob => rw [hl] at h; exact BuildResult.noConfusion h
          | none =>
            rw [hl] at h
            injection h with h1 h2 h3
            exact Or.inl h3.symm
        · rw [if_neg hm] at h
          injection h with h1 h2 h3
          exact Or.inl h3.symm
      | ok u0 =>
        simp only [hupd] at h
        by_cases hm : f.manageBooks = true
        · rw [if_pos hm] at h
          cases hl : lookupStore f.orderbooks sub.Request.Symbol with
          | some ob =>
            rw [hl] at h
            injection h with h1 h2 h3
            exact Or.inr ⟨ob, u0, rfl, h3.symm⟩
          | none =>
            rw [hl] at h
            injection h with h1 h2 h3
            exact Or.inl h3.symm
        · rw [if_neg hm] at h
          injection h with h1 h2 h3
          exact Or.inl h3.symm

theorem toFloatRow_err_shape (raw : List RawVal) (e : Err)
    (h : toFloatRow raw = .error e) : ∃ msg, e = .dataError msg := by
  induction raw with
  | nil => simp [toFloatRow] at h
  | cons x t ih =>
    cases x with
    | num n =>
      simp only [toFloatRow] at h
      cases hr : toFloatRow t with
      | error e2 =>
        simp only [hr] at h
        injection h with h1
        subst h1
        exact ih hr
      | ok r =>
        simp only [hr] at h
        exact Except.noConfusion h
    | str s =>
      simp only [toFloatRow] at h
      injection h with h1
      exact ⟨_, h1.symm⟩
    | null =>
      simp only [toFloatRow] at h
      injection h with h1
      exact ⟨_, h1.symm⟩

theorem FromWsRaw_symbol (symbol : String) (raw : List RawVal)
    (d : DerivativeStats) (h : derivatives.FromWsRaw symbol raw = .ok d) :
    d.symbol = symbol := by
  unfold derivatives.FromWsRaw at h
  cases hr : toFloatRow raw with
  | error e =>
    simp only [hr] at h
    exact Except.noConfusion h
  | ok ns =>
    simp only [hr] at h
    by_cases hn : 10 ≤ ns.length
    · rw [if_pos hn] at h
      injection h with h1
      rw [← h1]
    · rw [if_neg hn] at h
      exact Except.noConfusion h

theorem FromWsRaw_err_shape (symbol : String) (raw : List RawVal) (e : Err)
    (h : derivatives.FromWsRaw symbol raw = .error e) :
    ∃ msg, e = .dataError msg := by
  unfold derivatives.FromWsRaw at h
  cases hr : toFloatRow raw with
  | error e2 =>
    simp only [hr] at h
    injection h with h1
    exact h1 ▸ toFloatRow_err_shape raw e2 hr
  | ok ns =>
    simp only [hr] at h
    by_cases hn : 10 ≤ ns.length
    · rw [if_pos hn] at h
      exact Except.noConfusion h
    · rw [if_neg hn] at h
      injection h with h1
      exact ⟨_, h1.symm⟩

/-- C1: a `BookFactory.Build` or `BookFactory.BuildSnapshot` invocation
that returns a non-nil error leaves the replica store (the factory state,
hence the symbol-to-OrderBook mapping and every OrderBook in it) exactly
as it was before the call, for every subscription, raw fields and raw
bytes; in particular no update is applied to any OrderBook on the error
path. -/
theorem claim_C1_error_frame :
    (∀ (f : BookFactory) (sub : subscription) (objType : String)
        (raw : List RawVal) (raw_bytes : List Char) (v : Option BookUpdate)
        (e : Err) (f2 : BookFactory),
        BookFactory.Build f sub objType raw raw_bytes = .ret v (some e) f2 →
        f2 = f) ∧
    (∀ (f : BookFactory) (sub : subscription) (raw : List (List RawVal))
        (raw_bytes : List Char) (v : Option BookSnapshot) (e : Err)
        (f2 : BookFactory),
        BookFactory.BuildSnapshot f sub raw raw_bytes = .ret v (some e) f2 →
        f2 = f) :=
  ⟨fun f sub objType raw raw_bytes v e f2 h =>
      (Build_ret_err_state f sub objType raw raw_bytes v e f2 h).1,
    fun f sub raw raw_bytes v e f2 h =>
      (BuildSnapshot_ret_err_state f sub raw raw_bytes v e f2 h).1⟩

/-- Witness for C1: both branches applied at a concrete failing decode. -/
theorem claim_C1_error_frame_witness : (wF = wF) ∧ (wF = wF) :=
  ⟨claim_C1_error_frame.1 wF wSub "" wRawU "x".data none
      (.decodeError "unexpected character") wF (by rfl),
    claim_C1_error_frame.2 wF wSub [] "x".data none
      (.decodeError "unexpected character") wF (by rfl)⟩

/-- C5: `TradeFactory.Build` returns `(nil, nil)` unconditionally when the
message subtype denotes a trade update (`"tu"`), for arbitrary
subscription, raw fields and raw bytes, constructing no Trade; for any
other subtype it builds the Trade from the raw fields. -/
theorem claim_C5_trade_update_filtered :
    ∀ (sub : subscription) (objType : String) (raw : List RawVal)
      (raw_bytes : List Char),
      (objType = "tu" →
        TradeFactory.Build sub objType raw raw_bytes = (none, none)) ∧
      (objType ≠ "tu" →
        TradeFactory.Build sub objType raw raw_bytes =
          exceptToPair (NewTradeFromRaw sub.Request.Symbol raw)) := by
  intro sub objType raw raw_bytes
  constructor
  · intro h; simp [TradeFactory.Build, h]
  · intro h; simp [TradeFactory.Build, h]

/-- Witness for C5 at the concrete subtype `"tu"`. -/
theorem claim_C5_trade_update_filtered_witness :
    TradeFactory.Build wSub "tu" wRawU wBytesU = (none, none) :=
  (claim_C5_trade_update_filtered wSub "tu" wRawU wBytesU).1 rfl

/-- C6: `StatsFactory.Build` returns the malformed-key error carrying the
offending key exactly when the subscription key does not split on `:` into
exactly three segments; when it does split into `[p, s1, s2]`, the
canonical symbol of any resulting DerivativeStats record is `s1 ++ ":" ++ s2`. -/
theorem claim_C6_stats_key :
    ∀ (sub : subscription) (objType : String) (raw : List RawVal)
      (raw_bytes : List Char),
      ((StatsFactory.Build sub objType raw raw_bytes).2 =
          some (Err.malformedKey sub.Request.Key) ↔
        (goSplit ':' sub.Request.Key).length ≠ 3) ∧
      (∀ p s1 s2, goSplit ':' sub.Request.Key = [p, s1, s2] →
        ∀ d, (StatsFactory.Build sub objType raw raw_bytes).1 = some d →
          d.symbol = s1 ++ ":" ++ s2) := by
  intro sub objType raw raw_bytes
  rcases hsp : goSplit ':' sub.Request.Key with _ | ⟨a, _ | ⟨b, _ | ⟨c, _ | ⟨d0, r⟩⟩⟩⟩
  · constructor
    · simp [StatsFactory.Build, hsp]
    · intro p s1 s2 hps
      exact absurd hps (by simp)
  · constructor
    · simp [StatsFactory.Build, hsp]
    · intro p s1 s2 hps
      exact absurd hps (by simp)
  · constructor
    · simp [StatsFactory.Build, hsp]
    · intro p s1 s2 hps
      exact absurd hps (by simp)
  · constructor
    · simp only [StatsFactory.Build, hsp, List.length_cons, List.length_nil]
      constructor
      · intro h
        exfalso
        cases hfr : derivatives.FromWsRaw (b ++ ":" ++ c) raw with
        | ok d =>
          rw [hfr] at h
          simp [exceptToPair] at h
        | error e =>
          rw [hfr] at h
          obtain ⟨msg, hmsg⟩ := FromWsRaw_err_shape _ _ _ hfr
          subst hmsg
          simp [exceptToPair] at h
      · intro h
        omega
    · intro p s1 s2 hps d hd
      injection hps with h1 hps
      injection hps with h2 hps
      injection hps with h3 hps
      subst h2; subst h3
      simp only [StatsFactory.Build, hsp] at hd
      cases hfr : derivatives.FromWsRaw (b ++ ":" ++ c) raw with
      | ok d2 =>
        rw [hfr] at hd
        simp only [exceptToPair] at hd
        injection hd with h4
        exact h4 ▸ FromWsRaw_symbol _ _ _ hfr
      | error e =>
        rw [hfr] at hd
        simp [exceptToPair] at hd
  · constructor
    · simp [StatsFactory.Build, hsp]
    · intro p s1 s2 hps
      exact absurd hps (by simp)

/-- Witness for C6 at the concrete key `"deriv:tBTCF0:USTF0"`. -/
theorem claim_C6_stats_key_witness :
    (⟨"tBTCF0:USTF0", [1, 2, 3, 4, 5, 6, 7, 8, 9, 10]⟩ : DerivativeStats).symbol =
      "tBTCF0" ++ ":" ++ "USTF0" :=
  (claim_C6_stats_key wSubStats "" wRawStats []).2 "deriv" "tBTCF0" "USTF0"
    (by rfl) ⟨"tBTCF0:USTF0", [1, 2, 3, 4, 5, 6, 7, 8, 9, 10]⟩ (by rfl)

/-- C10: dispatching a build or snapshot to the Ticker, Trade, Candles or
Stats builder leaves the order-book replica store unchanged on every
input: only the Book builder ever reads or mutates the symbol-to-OrderBook
mapping. -/
theorem claim_C10_nonbook_frame :
    ∀ (f : BookFactory) (kind : ChannelKind) (sub : subscription)
      (objType : String) (raw : List RawVal) (rraw : List (List RawVal))
      (raw_bytes : List Char),
      kind ≠ ChannelKind.bookChan →
      (∀ v e f2,
        dispatchBuild f kind sub objType raw raw_bytes = .ret v e f2 → f2 = f) ∧
      (∀ v e f2,
        dispatchBuildSnapshot f kind sub rraw raw_bytes = .ret v e f2 → f2 = f) := by
  intro f kind sub objType raw rraw raw_bytes hk
  cases kind with
  | bookChan => exact absurd rfl hk
  | tickerChan =>
    refine ⟨fun v e f2 h => ?_, fun v e f2 h => ?_⟩ <;>
      (injection h with h1 h2 h3; exact h3.symm)
  | tradeChan =>
    refine ⟨fun v e f2 h => ?_, fun v e f2 h => ?_⟩ <;>
      (injection h with h1 h2 h3; exact h3.symm)
  | candlesChan =>
    refine ⟨fun v e f2 h => ?_, fun v e f2 h => ?_⟩ <;>
      (injection h with h1 h2 h3; exact h3.symm)
  | statsChan =>
    refine ⟨fun v e f2 h => ?_, fun v e f2 h => ?_⟩ <;>
      (injection h with h1 h2 h3; exact h3.symm)

/-- Witness for C10 at a concrete ticker dispatch. -/
theorem claim_C10_nonbook_frame_witness : wF = wF :=
  (claim_C10_nonbook_frame wF .tickerChan wSub "" [] [] [] (by simp)).1
    none (some (.dataError "ticker payload arity mismatch")) wF (by rfl)

/-- C2: a book level update applied to a populated, internally consistent
OrderBook through `BookFactory.Build` with management on installs exactly
`UpdateWith` of that book; a positive count upserts the level on its side
(the level is present afterwards, every other price of the side survives,
any prior level at that price is replaced, the side stays sorted and the
other side is untouched); a zero count removes the level at that price
(a no-op when absent), and running the same `Build` again from the
resulting state leaves it unchanged. -/
theorem claim_C2_update_semantics :
    ∀ (f : BookFactory) (sub : subscription) (objType : String)
      (raw : List RawVal) (raw_bytes : List Char) (u : BookUpdate)
      (ob : Orderbook) (f2 : BookFactory),
      f.manageBooks = true →
      lookupStore f.orderbooks sub.Request.Symbol = some ob →
      ob.WF →
      BookFactory.Build f sub objType raw raw_bytes = .ret (some u) none f2 →
      lookupStore f2.orderbooks sub.Request.Symbol = some (ob.UpdateWith u) ∧
      (0 < u.count →
        (ob.UpdateWith u).WF ∧
        (∀ l, l ∈ (ob.UpdateWith u).sideLevels u.side ↔
          l = u.level ∨ (l ∈ ob.sideLevels u.side ∧ l.price ≠ u.price)) ∧
        (ob.UpdateWith u).sideLevels u.side.other = ob.sideLevels u.side.other) ∧
      (u.count = 0 →
        (ob.UpdateWith u).sideLevels u.side =
          removeAt u.price (ob.sideLevels u.side) ∧
        ((∀ l ∈ ob.sideLevels u.side, l.price ≠ u.price) →
          ob.UpdateWith u = ob) ∧
        BookFactory.Build f2 sub objType raw raw_bytes = .ret (some u) none f2) := by
  intro f sub objType raw raw_bytes u ob f2 hm hl hwf h
  obtain ⟨obs, mb⟩ := f
  simp only at hm
  subst hm
  simp only at hl
  obtain ⟨t0, tok1, rest, hdec, hupd, hcase⟩ :=
    Build_ok_inv ⟨obs, true⟩ sub objType raw raw_bytes u f2 h
  have hf2 : f2 = ⟨insertStore obs sub.Request.Symbol (ob.UpdateWith u), true⟩ := by
    rcases hcase with ⟨_, ob2, hl2, hf2⟩ | ⟨hf2, hc | hc⟩
    · simp only at hl2
      rw [hl] at hl2
      injection hl2 with hob
      subst hob
      exact hf2
    · simp only at hc
      exact Bool.noConfusion hc
    · simp only at hc
      rw [hl] at hc
      exact Option.noConfusion hc
  subst hf2
  refine ⟨?_, ?_, ?_⟩
  · exact lookupStore_insertStore_self obs sub.Request.Symbol (ob.UpdateWith u)
  · intro hc
    exact ⟨UpdateWith_WF ob u hwf, UpdateWith_mem_pos ob u hwf hc,
      UpdateWith_other_side ob u⟩
  · intro hc
    refine ⟨UpdateWith_zero_levels ob u hc, UpdateWith_zero_absent ob u hc, ?_⟩
    have hB := Build_of_ok
      ⟨insertStore obs sub.Request.Symbol (ob.UpdateWith u), true⟩
      sub objType raw raw_bytes t0 tok1 rest u hdec hupd
    rw [hB]
    rw [if_pos rfl]
    have hlk : lookupStore (insertStore obs sub.Request.Symbol (ob.UpdateWith u))
        sub.Request.Symbol = some (ob.UpdateWith u) :=
      lookupStore_insertStore_self obs sub.Request.Symbol (ob.UpdateWith u)
    simp only [hlk]
    rw [UpdateWith_zero_idem ob u hc]
    rw [insertStore_self_of_lookup _ _ _ hlk]

/-- Witness for C2 at a concrete positive-count update on a populated
empty book. -/
theorem claim_C2_update_semantics_witness :
    lookupStore (⟨[("tBTCUSD", ⟨"tBTCUSD", [⟨100, 2, 1⟩], []⟩)], true⟩ : BookFactory).orderbooks
        "tBTCUSD" = some (wBook.UpdateWith wU) :=
  (claim_C2_update_semantics wF wSub "" wRawU wBytesU wU wBook
    ⟨[("tBTCUSD", ⟨"tBTCUSD", [⟨100, 2, 1⟩], []⟩)], true⟩
    rfl rfl ⟨List.Pairwise.nil, List.Pairwise.nil⟩ (by rfl)).1

/-- C3: a successful `BuildSnapshot` with management on installs, for the
subscription's symbol, a brand-new OrderBook built from an empty book and
the snapshot rows alone; every level of that book comes from a snapshot
row (so nothing from any previously installed book survives unless it is
in the new snapshot, whether the symbol was Absent or Populated before),
and every other symbol's entry is untouched. -/
theorem claim_C3_snapshot_wholesale :
    ∀ (f : BookFactory) (sub : subscription) (raw : List (List RawVal))
      (raw_bytes : List Char) (snap : BookSnapshot) (f2 : BookFactory),
      f.manageBooks = true →
      BookFactory.BuildSnapshot f sub raw raw_bytes = .ret (some snap) none f2 →
      lookupStore f2.orderbooks sub.Request.Symbol =
        some (Orderbook.SetWithSnapshot ⟨sub.Request.Symbol, [], []⟩ snap) ∧
      (∀ l, l ∈ (Orderbook.SetWithSnapshot ⟨sub.Request.Symbol, [], []⟩ snap).bids ++
            (Orderbook.SetWithSnapshot ⟨sub.Request.Symbol, [], []⟩ snap).asks →
        ∃ u ∈ snap.updates, u.level = l) ∧
      (∀ sym2, sym2 ≠ sub.Request.Symbol →
        lookupStore f2.orderbooks sym2 = lookupStore f.orderbooks sym2) := by
  intro f sub raw raw_bytes snap f2 hm h
  have hf2 := (BuildSnapshot_ok_inv f sub raw raw_bytes snap f2 h).1 hm
  subst hf2
  refine ⟨?_, ?_, ?_⟩
  · exact lookupStore_insertStore_self _ _ _
  · intro l hl
    rcases SetWithSnapshot_levels ⟨sub.Request.Symbol, [], []⟩ snap l hl with h2 | h2
    · simp at h2
    · exact h2
  · intro sym2 hs
    exact lookupStore_insertStore_ne _ _ _ _ hs

/-- Witness for C3 at a concrete two-row snapshot over a populated store. -/
theorem claim_C3_snapshot_wholesale_witness :
    lookupStore (⟨[("tBTCUSD", ⟨"tBTCUSD", [⟨100, 2, 1⟩], [⟨102, 1, -3⟩]⟩)], true⟩ : BookFactory).orderbooks
        "tBTCUSD" = some (Orderbook.SetWithSnapshot ⟨"tBTCUSD", [], []⟩ wSnap) :=
  (claim_C3_snapshot_wholesale wF wSub wSnapRaw wSnapBytes wSnap
    ⟨[("tBTCUSD", ⟨"tBTCUSD", [⟨100, 2, 1⟩], [⟨102, 1, -3⟩]⟩)], true⟩
    rfl (by rfl)).1

/-- C7: a successful `Build` for a symbol with no OrderBook in the store
leaves the store entirely unchanged (no book is created, no other entry is
touched), and the very same update is returned whether replica management
is enabled or not. -/
theorem claim_C7_absent_update_dropped :
    ∀ (f : BookFactory) (sub : subscription) (objType : String)
      (raw : List RawVal) (raw_bytes : List Char) (u : BookUpdate)
      (f2 : BookFactory),
      lookupStore f.orderbooks sub.Request.Symbol = none →
      BookFactory.Build f sub objType raw raw_bytes = .ret (some u) none f2 →
      f2 = f ∧
      (∀ b : Bool,
        BookFactory.Build ⟨f.orderbooks, b⟩ sub objType raw raw_bytes =
          .ret (some u) none ⟨f.orderbooks, b⟩) := by
  intro f sub objType raw raw_bytes u f2 hl h
  obtain ⟨t0, tok1, rest, hdec, hupd, hcase⟩ :=
    Build_ok_inv f sub objType raw raw_bytes u f2 h
  have hf2 : f2 = f := by
    rcases hcase with ⟨_, ob2, hl2, _⟩ | ⟨hf2, _⟩
    · rw [hl] at hl2
      exact Option.noConfusion hl2
    · exact hf2
  refine ⟨hf2, ?_⟩
  intro b
  have hB := Build_of_ok ⟨f.orderbooks, b⟩ sub objType raw raw_bytes
    t0 tok1 rest u hdec hupd
  rw [hB]
  cases b
  · rw [if_neg (by simp)]
  · rw [if_pos rfl]
    have hl2 : lookupStore (⟨f.orderbooks, true⟩ : BookFactory).orderbooks
        sub.Request.Symbol = none := hl
    simp only [hl2]

/-- Witness for C7 at a concrete update against an empty store. -/
theorem claim_C7_absent_update_dropped_witness : wFempty = wFempty :=
  (claim_C7_absent_update_dropped wFempty wSub "" wRawU wBytesU wU wFempty
    rfl (by rfl)).1

/-- C9: when the raw bytes decode to an array of fewer than two tokens,
`BookFactory.Build` panics instead of returning (the Go code indexes
position 1 of the decoded sequence without a bounds check), and so does
`BookFactory.BuildSnapshot` whenever its row conversion succeeds. -/
theorem claim_C9_short_array_panics :
    ∀ (f : BookFactory) (sub : subscription) (objType : String)
      (raw : List RawVal) (raw2 : List (List RawVal)) (raw_bytes : List Char)
      (toks : List JToken),
      decodeExact raw_bytes = .ok toks →
      toks.length < 2 →
      BookFactory.Build f sub objType raw raw_bytes = .panics ∧
      ((ToFloat64Array raw2).isOk = true →
        BookFactory.BuildSnapshot f sub raw2 raw_bytes = .panics) := by
  intro f sub objType raw raw2 raw_bytes toks hdec hlen
  have hconv : ConvertBytesToJsonNumberArray raw_bytes = .ok toks := by
    simp [ConvertBytesToJsonNumberArray, hdec]
  constructor
  · unfold BookFactory.Build
    rw [hconv]
    rcases toks with _ | ⟨a, _ | ⟨b, r⟩⟩
    · rfl
    · rfl
    · simp only [List.length_cons] at hlen; omega
  · intro hok
    cases hc2 : ToFloat64Array raw2 with
    | error e =>
      rw [hc2] at hok
      simp [Except.isOk, Except.toBool] at hok
    | ok conv =>
      unfold BookFactory.BuildSnapshot
      rw [hc2, hconv]
      rcases toks with _ | ⟨a, _ | ⟨b, r⟩⟩
      · rfl
      · rfl
      · simp only [List.length_cons] at hlen; omega

/-- Witness for C9 at the concrete bytes `"[1]"`. -/
theorem claim_C9_short_array_panics_witness :
    BookFactory.Build wF wSub "" wRawU "[1]".data = .panics ∧
    ((ToFloat64Array ([] : List (List RawVal))).isOk = true →
      BookFactory.BuildSnapshot wF wSub [] "[1]".data = .panics) :=
  claim_C9_short_array_panics wF wSub "" wRawU [] "[1]".data
    [.num "1"] (by rfl) (by decide)

theorem buildStep_present (f : BookFactory) (c : BuildCall) (sym : String)
    (h : lookupStore f.orderbooks sym ≠ none) :
    lookupStore (buildStep f c).orderbooks sym ≠ none := by
  unfold buildStep
  cases hb : BookFactory.Build f c.sub c.objType c.raw c.raw_bytes with
  | panics => simp only [hb]; exact h
  | ret v e f2 =>
    simp only [hb]
    rcases Build_state_cases f c.sub c.objType c.raw c.raw_bytes v e f2 hb with
      h2 | ⟨ob, u, hl, h2⟩
    · rw [h2]; exact h
    · rw [h2]
      exact lookupStore_insertStore_isSome f.orderbooks _ sym _ h

theorem buildStep_WF (f : BookFactory) (c : BuildCall)
    (hWF : ∀ sym ob, lookupStore f.orderbooks sym = some ob → ob.WF) :
    ∀ sym ob, lookupStore (buildStep f c).orderbooks sym = some ob → ob.WF := by
  unfold buildStep
  cases hb : BookFactory.Build f c.sub c.objType c.raw c.raw_bytes with
  | panics => simp only [hb]; exact hWF
  | ret v e f2 =>
    simp only [hb]
    rcases Build_state_cases f c.sub c.objType c.raw c.raw_bytes v e f2 hb with
      h2 | ⟨ob0, u, hl, h2⟩
    · rw [h2]; exact hWF
    · rw [h2]
      intro sym ob hlk
      simp only at hlk
      by_cases hs : sym = c.sub.Request.Symbol
      · subst hs
        rw [lookupStore_insertStore_self] at hlk
        injection hlk with hob
        subst hob
        exact UpdateWith_WF ob0 u (hWF _ _ hl)
      · rw [lookupStore_insertStore_ne _ _ _ _ hs] at hlk
        exact hWF _ _ hlk

theorem runBuilds_present (cs : List BuildCall) :
    ∀ (f : BookFactory) (sym : String),
      lookupStore f.orderbooks sym ≠ none →
      lookupStore (runBuilds f cs).orderbooks sym ≠ none := by
  induction cs with
  | nil => intro f sym h; exact h
  | cons c cs ih =>
    intro f sym h
    have hstep : runBuilds f (c :: cs) = runBuilds (buildStep f c) cs := rfl
    rw [hstep]
    exact ih (buildStep f c) sym (buildStep_present f c sym h)

theorem runBuilds_WF (cs : List BuildCall) :
    ∀ (f : BookFactory),
      (∀ sym ob, lookupStore f.orderbooks sym = some ob → ob.WF) →
      ∀ sym ob, lookupStore (runBuilds f cs).orderbooks sym = some ob → ob.WF := by
  induction cs with
  | nil => intro f h; exact h
  | cons c cs ih =>
    intro f h
    have hstep : runBuilds f (c :: cs) = runBuilds (buildStep f c) cs := rfl
    rw [hstep]
    exact ih (buildStep f c) (buildStep_WF f c h)

/-- C8: the store is touched by each `Build` call in exactly one atomic
locked lookup-and-mutate step, taken after the pure decode step, so any
interleaving of N concurrent `Build` calls for distinct symbols is
observationally some permutation of the calls run in sequence; for every
such schedule, every symbol whose OrderBook was present (in particular the
N called symbols) still has its OrderBook present afterwards, and every
OrderBook reachable from the store is internally consistent (strictly
sorted sides, hence unique prices) — no partially-applied state is ever
visible. -/
theorem claim_C8_concurrent_builds :
    ∀ (calls sched : List BuildCall) (f : BookFactory),
      sched.Perm calls →
      (calls.map fun c => c.sub.Request.Symbol).Nodup →
      (∀ c ∈ calls, lookupStore f.orderbooks c.sub.Request.Symbol ≠ none) →
      (∀ sym ob, lookupStore f.orderbooks sym = some ob → ob.WF) →
      (∀ c ∈ calls,
        lookupStore (runBuilds f sched).orderbooks c.sub.Request.Symbol ≠ none) ∧
      (∀ sym ob, lookupStore (runBuilds f sched).orderbooks sym = some ob → ob.WF) := by
  intro calls sched f hperm hnodup hpresent hWF
  refine ⟨?_, runBuilds_WF sched f hWF⟩
  intro c hc
  exact runBuilds_present sched f _ (hpresent c hc)

/-- Witness for C8: one concrete call against a store holding its book. -/
theorem claim_C8_concurrent_builds_witness :
    (∀ c ∈ [wCall],
      lookupStore (runBuilds wF [wCall]).orderbooks c.sub.Request.Symbol ≠ none) ∧
    (∀ sym ob, lookupStore (runBuilds wF [wCall]).orderbooks sym = some ob →
      ob.WF) :=
  claim_C8_concurrent_builds [wCall] [wCall] wF (List.Perm.refl _) (by simp)
    (by
      intro c hc
      rw [List.mem_singleton] at hc
      subst hc
      decide)
    (by
      intro sym ob h
      have h2 : lookupStore [("tBTCUSD", wBook)] sym = some ob := h
      unfold lookupStore at h2
      by_cases hs : "tBTCUSD" = sym
      · rw [if_pos hs] at h2
        injection h2 with hob
        subst hob
        exact ⟨List.Pairwise.nil, List.Pairwise.nil⟩
      · rw [if_neg hs] at h2
        exact Option.noConfusion h2)

theorem takeWhile_all_append (p : Char → Bool) (a rest : List Char)
    (h1 : a.all p = true) (h2 : headNotB p rest = true) :
    (a ++ rest).takeWhile p = a ∧ (a ++ rest).dropWhile p = rest := by
  induction a with
  | nil =>
    cases rest with
    | nil => simp
    | cons c r =>
      simp only [headNotB, Bool.not_eq_true'] at h2
      simp [List.takeWhile_cons, List.dropWhile_cons, h2]
  | cons x a ih =>
    simp only [List.all_cons, Bool.and_eq_true] at h1
    have hr := ih h1.2
    simp [List.takeWhile_cons, List.dropWhile_cons, h1.1, hr.1, hr.2]

theorem skipWs_cons_of_not_ws (c : Char) (cs : List Char)
    (h : wsChar c = false) : skipWs (c :: cs) = c :: cs := by
  simp [skipWs, h]

theorem validNumber_shape (cs : List Char) (h : validNumber cs = true) :
    ∃ c t, cs = c :: t ∧ (c.isDigit || c = '-') = true := by
  cases cs with
  | nil => simp [validNumber, stripMinus] at h
  | cons c t =>
    refine ⟨c, t, rfl, ?_⟩
    by_cases hm : c = '-'
    · simp [hm]
    · by_cases hd : c.isDigit
      · simp [hd]
      · exfalso
        unfold validNumber at h
        rw [show stripMinus (c :: t) = c :: t by simp [stripMinus, hm]] at h
        simp only [List.takeWhile_cons, if_neg hd] at h
        simp at h

theorem numStart_props (c : Char) (h : (c.isDigit || c = '-') = true) :
    c ≠ '[' ∧ c ≠ '"' ∧ c ≠ 'n' ∧ c ≠ ']' ∧ c ≠ ',' ∧ wsChar c = false := by
  refine ⟨fun heq => by subst heq; revert h; decide,
    fun heq => by subst heq; revert h; decide,
    fun heq => by subst heq; revert h; decide,
    fun heq => by subst heq; revert h; decide,
    fun heq => by subst heq; revert h; decide, ?_⟩
  by_cases h1 : c = ' '
  · subst h1; revert h; decide
  · by_cases h2 : c = '\n'
    · subst h2; revert h; decide
    · by_cases h3 : c = '\t'
      · subst h3; revert h; decide
      · by_cases h4 : c = '\r'
        · subst h4; revert h; decide
        · simp [wsChar, h1, h2, h3, h4]

theorem serTok_head (t : JToken) (hwf : wfTok t = true) :
    ∃ c r, serTok t = c :: r ∧ wsChar c = false ∧ c ≠ ']' ∧ c ≠ ',' := by
  cases t with
  | num s =>
    simp only [wfTok, Bool.and_eq_true] at hwf
    obtain ⟨c, tdata, hsdata, hstart⟩ := validNumber_shape s.data hwf.1
    have hp := numStart_props c hstart
    exact ⟨c, tdata, by simp [serTok, hsdata], hp.2.2.2.2.2, hp.2.2.2.1, hp.2.2.2.2.1⟩
  | str s => exact ⟨'"', s.data ++ ['"'], rfl, by decide, by decide, by decide⟩
  | null => exact ⟨'n', ['u', 'l', 'l'], rfl, by decide, by decide, by decide⟩
  | arr es => exact ⟨'[', serList es ++ [']'], rfl, by decide, by decide, by decide⟩

theorem nextSepB_of_sep (t : JToken) (c : Char) (rest : List Char)
    (h : numberChar c = false) : nextSepB t (c :: rest) = true := by
  cases t <;> simp [nextSepB, headNotB, h]

mutual
theorem fuelTok_le (t : JToken) (h : wfTok t = true) :
    fuelTok t ≤ (serTok t).length * 2 := by
  match t with
  | .num s =>
    simp only [wfTok, Bool.and_eq_true] at h
    obtain ⟨c, tdata, hsdata, _⟩ := validNumber_shape s.data h.1
    simp only [fuelTok, serTok, hsdata, List.length_cons]
    omega
  | .str s =>
    simp only [fuelTok, serTok, List.length_cons, List.length_append,
      List.length_nil]
    omega
  | .null =>
    simp only [fuelTok, serTok, List.length_cons, List.length_nil]
    omega
  | .arr [] =>
    simp [fuelTok, fuelElems, serTok, serList]
  | .arr (t1 :: ts) =>
    have h2 := fuelItems_le (t1 :: ts) (by simpa [wfTok, wfList] using h) (by simp)
    simp only [fuelTok, fuelElems, serTok, List.length_cons, List.length_append,
      List.length_nil]
    omega
termination_by sizeOf t

theorem fuelItems_le (es : List JToken) (h : wfList es = true) (hne : es ≠ []) :
    fuelItems es ≤ (serList es).length * 2 + 2 := by
  match es with
  | [t] =>
    simp only [wfList, Bool.and_eq_true] at h
    have h1 := fuelTok_le t h.1
    simp only [fuelItems, serList]
    omega
  | t :: t2 :: ts =>
    simp only [wfList, Bool.and_eq_true] at h
    have h1 := fuelTok_le t h.1
    have h2 := fuelItems_le (t2 :: ts) (by simp [wfList, h.2.1, h.2.2]) (by simp)
    simp only [fuelItems, serList, List.length_append, List.length_cons]
    omega
termination_by sizeOf es
end

theorem serList_cons_head (t1 : JToken) (ts : List JToken)
    (hwf : wfTok t1 = true) :
    ∃ c r, serList (t1 :: ts) = c :: r ∧ wsChar c = false ∧ c ≠ ']' := by
  obtain ⟨c, r, hc, hw, hb, _⟩ := serTok_head t1 hwf
  cases ts with
  | nil => exact ⟨c, r, by simp [serList, hc], hw, hb⟩
  | cons t2 ts2 =>
    exact ⟨c, r ++ ',' :: serList (t2 :: ts2), by simp [serList, hc], hw, hb⟩

mutual
theorem parseValue_ser (t : JToken) (rest : List Char) (fuel : Nat)
    (hwf : wfTok t = true) (hfuel : fuelTok t ≤ fuel)
    (hrest : nextSepB t rest = true) :
    parseValue fuel (serTok t ++ rest) = .ok (t, rest) := by
  match t with
  | .num s =>
    simp only [wfTok, Bool.and_eq_true] at hwf
    obtain ⟨hv, hall⟩ := hwf
    obtain ⟨c, tdata, hsdata, hstart⟩ := validNumber_shape s.data hv
    cases fuel with
    | zero => exact absurd hfuel (by simp [fuelTok])
    | succ f =>
      have hser : serTok (.num s) ++ rest = c :: (tdata ++ rest) := by
        simp [serTok, hsdata]
      rw [hser]
      have hp := numStart_props c hstart
      simp only [parseValue]
      rw [if_neg hp.1, if_neg hp.2.1, if_neg hp.2.2.1, if_pos hstart]
      have hta : (c :: tdata).all numberChar = true := by
        rw [← hsdata]; exact hall
      have hsep : headNotB numberChar rest = true := by
        simpa [nextSepB] using hrest
      have hsp := takeWhile_all_append numberChar (c :: tdata) rest hta hsep
      rw [show ((c :: tdata) ++ rest) = c :: (tdata ++ rest) from rfl] at hsp
      rw [hsp.1, hsp.2]
      rw [if_pos (by rw [← hsdata]; exact hv)]
      rw [← hsdata]
      try rfl
  | .str s =>
    cases fuel with
    | zero => exact absurd hfuel (by simp [fuelTok])
    | succ f =>
      have hser : serTok (.str s) ++ rest = '"' :: (s.data ++ '"' :: rest) := by
        simp [serTok]
      rw [hser]
      have hsp := takeWhile_all_append (fun ch => ch != '"') s.data ('"' :: rest)
        (by simpa [wfTok] using hwf) (by simp [headNotB])
      simp only [parseValue, if_true]
      simp only [hsp.1, hsp.2]
      try rfl
  | .null =>
    cases fuel with
    | zero => exact absurd hfuel (by simp [fuelTok])
    | succ f =>
      have hser : serTok .null ++ rest = 'n' :: 'u' :: 'l' :: 'l' :: rest := by
        simp [serTok]
      rw [hser]
      simp only [parseValue, if_true]
      try rfl
  | .arr [] =>
    cases fuel with
    | zero => exact absurd hfuel (by simp [fuelTok, fuelElems])
    | succ f =>
      have hf2 : 1 ≤ f := by
        simp only [fuelTok, fuelElems] at hfuel; omega
      cases f with
      | zero => exact absurd hf2 (by omega)
      | succ f2 =>
        have hser : serTok (.arr []) ++ rest = '[' :: ']' :: rest := by
          simp [serTok, serList]
        rw [hser]
        have hpe : parseElems (f2 + 1) (']' :: rest) = .ok ([], rest) := by
          simp only [parseElems]
          simp only [skipWs_cons_of_not_ws ']' rest (by decide)]
          simp
        simp only [parseValue, if_true, hpe]
        try rfl
  | .arr (t1 :: ts) =>
    cases fuel with
    | zero => exact absurd hfuel (by simp [fuelTok])
    | succ f =>
      have hf2 : fuelElems (t1 :: ts) ≤ f := by
        simp only [fuelTok] at hfuel; omega
      cases f with
      | zero => exact absurd hf2 (by simp [fuelElems])
      | succ f2 =>
        have hwfl : wfList (t1 :: ts) = true := by
          simpa [wfTok] using hwf
        have hfi : fuelItems (t1 :: ts) ≤ f2 := by
          simp only [fuelElems] at hf2; omega
        have hpe : parseElems (f2 + 1) (serList (t1 :: ts) ++ ']' :: rest) =
            .ok (t1 :: ts, rest) := by
          obtain ⟨c0, r0, hc0, hw0, hb0⟩ := serList_cons_head t1 ts
            (by simp only [wfList, Bool.and_eq_true] at hwfl; exact hwfl.1)
          have hin : serList (t1 :: ts) ++ ']' :: rest =
              c0 :: (r0 ++ ']' :: rest) := by
            rw [hc0]; rfl
          rw [hin]
          simp only [parseElems]
          simp only [skipWs_cons_of_not_ws c0 _ hw0]
          rw [if_neg hb0]
          rw [← hin]
          exact parseItems_ser (t1 :: ts) rest f2 hwfl (by simp) hfi
        have hser : serTok (.arr (t1 :: ts)) ++ rest =
            '[' :: (serList (t1 :: ts) ++ ']' :: rest) := by
          simp [serTok]
        rw [hser]
        simp only [parseValue, if_true, hpe]
        try rfl
termination_by sizeOf t

theorem parseItems_ser (es : List JToken) (rest : List Char) (fuel : Nat)
    (hwf : wfList es = true) (hne : es ≠ []) (hfuel : fuelItems es ≤ fuel) :
    parseItems fuel (serList es ++ ']' :: rest) = .ok (es, rest) := by
  match es with
  | [t] =>
    cases fuel with
    | zero => exact absurd hfuel (by simp [fuelItems])
    | succ f =>
      simp only [wfList, Bool.and_eq_true] at hwf
      have hft : fuelTok t ≤ f := by
        simp only [fuelItems] at hfuel; omega
      simp only [parseItems]
      obtain ⟨c0, r0, hc0, hw0, _, _⟩ := serTok_head t hwf.1
      have hskip : skipWs (serList [t] ++ ']' :: rest) = serTok t ++ ']' :: rest := by
        show skipWs (serTok t ++ ']' :: rest) = _
        rw [hc0]
        exact skipWs_cons_of_not_ws c0 _ hw0
      rw [hskip]
      simp only [parseValue_ser t (']' :: rest) f hwf.1 hft
        (nextSepB_of_sep t ']' rest (by decide))]
      simp only [skipWs_cons_of_not_ws ']' rest (by decide)]
      simp
  | t :: t2 :: ts =>
    cases fuel with
    | zero => exact absurd hfuel (by simp [fuelItems])
    | succ f =>
      simp only [wfList, Bool.and_eq_true] at hwf
      have hmax1 := Nat.le_max_left (fuelTok t) (fuelItems (t2 :: ts))
      have hmax2 := Nat.le_max_right (fuelTok t) (fuelItems (t2 :: ts))
      have hft : fuelTok t ≤ f := by
        simp only [fuelItems] at hfuel; omega
      have hfi : fuelItems (t2 :: ts) ≤ f := by
        simp only [fuelItems] at hfuel; omega
      simp only [parseItems]
      have hin : serList (t :: t2 :: ts) ++ ']' :: rest =
          serTok t ++ (',' :: (serList (t2 :: ts) ++ ']' :: rest)) := by
        simp [serList, List.append_assoc]
      rw [hin]
      obtain ⟨c0, r0, hc0, hw0, _, _⟩ := serTok_head t hwf.1
      have hskip : skipWs (serTok t ++ ',' :: (serList (t2 :: ts) ++ ']' :: rest)) =
          serTok t ++ ',' :: (serList (t2 :: ts) ++ ']' :: rest) := by
        rw [hc0]
        exact skipWs_cons_of_not_ws c0 _ hw0
      rw [hskip]
      simp only [parseValue_ser t (',' :: (serList (t2 :: ts) ++ ']' :: rest)) f
        hwf.1 hft (nextSepB_of_sep t ',' _ (by decide))]
      simp only [skipWs_cons_of_not_ws ',' _ (by decide)]
      simp only [parseItems_ser (t2 :: ts) rest f
        (by simp [wfList, hwf.2.1, hwf.2.2]) (by simp) hfi]
      simp
termination_by sizeOf es
end

/-- C4: the exact-numeric decoding path preserves numeric literals
textually: decoding the serialization of any well-formed token sequence
(numbers stored as their exact literal strings — including integers
exceeding 2^53 — strings, nulls, nested arrays) returns exactly those
tokens, so re-serializing reproduces the identical digit strings; and
`ConvertBytesToJsonNumberArray` fails with an error exactly when the
underlying exact decoder rejects the bytes as a well-formed array
literal, propagating that error unchanged. -/
theorem claim_C4_exact_decoder :
    (∀ es : List JToken, wfList es = true →
      ConvertBytesToJsonNumberArray (serTok (.arr es)) = .ok es) ∧
    (∀ (cs : List Char) (e : Err),
      ConvertBytesToJsonNumberArray cs = .error e ↔ decodeExact cs = .error e) := by
  constructor
  · intro es hwf
    have hwf2 : wfTok (.arr es) = true := by simpa [wfTok] using hwf
    have hd : decodeExact (serTok (.arr es)) = .ok es := by
      unfold decodeExact
      have hfuel : fuelTok (.arr es) ≤ (serTok (.arr es)).length * 2 + 4 := by
        have h2 := fuelTok_le (.arr es) hwf2
        omega
      have hskip : skipWs (serTok (.arr es)) = serTok (.arr es) := by
        rw [show serTok (.arr es) = '[' :: (serList es ++ [']']) from rfl]
        exact skipWs_cons_of_not_ws '[' _ (by decide)
      rw [hskip]
      have hpv := parseValue_ser (.arr es) [] ((serTok (.arr es)).length * 2 + 4)
        hwf2 hfuel rfl
      rw [List.append_nil] at hpv
      simp only [hpv]
      simp [skipWs]
    simp [ConvertBytesToJsonNumberArray, hd]
  · intro cs e
    unfold ConvertBytesToJsonNumberArray
    cases h : decodeExact cs with
    | error e2 => simp [h]
    | ok ts => simp [h]

/-- Witness for C4 at a 66-bit integer literal (2^65, beyond 2^53). -/
theorem claim_C4_exact_decoder_witness :
    ConvertBytesToJsonNumberArray (serTok (.arr [.num "36893488147419103232"])) =
      .ok [.num "36893488147419103232"] :=
  claim_C4_exact_decoder.1 [.num "36893488147419103232"] (by decide)

end BitfinexWS
